import Mathlib

/-! The integer option handler of argtable2 (`src/arg_int.c`).

A shallow embedding of `resetfn`, `strtol0X`, `detectsuffix`, `scanfn`,
`checkfn` and the constructors `arg_intn`, `arg_int0`, `arg_int1`, followed by
the properties proved about them.

Conventions of the embedding.

* `int` is 32 bits and `long int` is 64 bits (the LP64 data model, the one in
  which the overflow check of `scanfn` is effective).  Values are carried as
  `Int`; results of arithmetic that C computes in a machine type are reduced
  with `wrapInt` / `wrapLong`.
* A C string is the list of its characters before the terminator; reading at
  the end of the list yields the terminator `NUL` (`peek`).
* A cursor into a string (`endptr`) is the number of characters between the
  start of the string and the cursor, so `end == str` reads `offset = 0`.
* `isspace` and `toupper` are those of the "C" locale.  `strtol` is the
  function of the C library (ISO C99 7.20.1.4), which is not part of the
  repository; it is written out here from the standard.
* The value array `ival` is a pointer in the source; it is a map from index
  to stored value here, and a store is `Function.update`.
* The fields `count`, `mincount`, `maxcount` are C `int`s.  Where a statement
  needs `count + 1` not to leave the `int` range it says so by the hypotheses
  `INT_MIN ≤ count` and `maxcount ≤ INT_MAX`, which every C instance meets.
-/

namespace ArgInt

/-! ## Machine integers -/

/-- Largest `int`. -/
def INT_MAX : Int := 2147483647

/-- Smallest `int`. -/
def INT_MIN : Int := -2147483648

/-- Largest `long int`. -/
def LONG_MAX : Int := 9223372036854775807

/-- Smallest `long int`. -/
def LONG_MIN : Int := -9223372036854775808

/-- Reduction of a mathematical integer to a 32-bit two's-complement `int`. -/
def wrapInt (x : Int) : Int := (x + 2147483648) % 4294967296 - 2147483648

/-- Reduction of a mathematical integer to a 64-bit two's-complement `long`. -/
def wrapLong (x : Int) : Int :=
  (x + 9223372036854775808) % 18446744073709551616 - 9223372036854775808

/-- Saturation of `strtol`: a magnitude that does not fit yields `LONG_MAX` or
`LONG_MIN` according to its sign. -/
def clampLong (x : Int) : Int :=
  if x > LONG_MAX then LONG_MAX else if x < LONG_MIN then LONG_MIN else x

/-! ## Error codes (`arg_int.c:36`) -/

/-- Error code: fewer occurrences than `mincount`. -/
def EMINCOUNT : Int := 1

/-- Error code: more occurrences than `maxcount`. -/
def EMAXCOUNT : Int := 2

/-- Error code: the text is not an integer. -/
def EBADINT : Int := 3

/-- Error code: the integer does not fit an `int`. -/
def EOVERFLOW : Int := 4

/-! ## Characters and strings -/

/-- The string terminator. -/
def NUL : Char := Char.ofNat 0

/-- Dereference of a cursor: the character under it, `NUL` at the end. -/
def peek (s : List Char) : Char := s.headD NUL

/-- The C library `isspace` in the "C" locale: space, `\t`, `\n`, `\v`, `\f`, `\r`. -/
def isspace (c : Char) : Bool := c.toNat == 32 || (9 ≤ c.toNat && c.toNat ≤ 13)

/-- The C library `toupper` in the "C" locale; like the C function it returns an `int`. -/
def toupper (c : Char) : Nat :=
  if 97 ≤ c.toNat ∧ c.toNat ≤ 122 then c.toNat - 32 else c.toNat

/-- The value of a character as a digit of `strtol`: `0-9`, then letters of
either case from ten upward. -/
def digitval (c : Char) : Option Nat :=
  if 48 ≤ c.toNat ∧ c.toNat ≤ 57 then some (c.toNat - 48)
  else if 97 ≤ c.toNat ∧ c.toNat ≤ 122 then some (c.toNat - 87)
  else if 65 ≤ c.toNat ∧ c.toNat ≤ 90 then some (c.toNat - 55)
  else none

/-- Whether `c` is a digit of the base `b`. -/
def isdigitIn (b : Nat) (c : Char) : Bool :=
  match digitval c with
  | some d => decide (d < b)
  | none => false

/-- The number a run of digits denotes in base `b`. -/
def digitsValue (b : Nat) (run : List Char) : Nat :=
  run.foldl (fun a c => a * b + (digitval c).getD 0) 0

/-! ## `strtol` of the C library -/

/-- The C library `strtol(nptr, &end, base)`: skip white space, take an
optional sign, for base 16 (and base 0) an optional `0x`/`0X` that a hex digit
follows, then the longest run of digits of the base.  The result is the value,
saturated to the range of `long`, and the offset of `end` from `nptr`; with no
digit the result is `(0, 0)`, that is `end == nptr`.  A base outside
`0, 2..36` converts nothing. -/
def strtol (nptr : List Char) (base : Int) : Int × Nat :=
  if base < 0 ∨ base = 1 ∨ 36 < base then (0, 0) else
  let p1 := nptr.dropWhile isspace
  let neg : Bool := decide (peek p1 = '-')
  let p2 := if peek p1 = '-' ∨ peek p1 = '+' then p1.tail else p1
  let hexpfx : Bool :=
    decide (peek p2 = '0') && decide (toupper (peek p2.tail) = 88)
      && isdigitIn 16 (peek p2.tail.tail)
  let b : Nat :=
    if base = 0 then (if hexpfx then 16 else if peek p2 = '0' then 8 else 10)
    else base.toNat
  let p3 := if b = 16 ∧ hexpfx = true then p2.tail.tail else p2
  let run := p3.takeWhile (isdigitIn b)
  if run.length = 0 then (0, 0) else
  let acc : Int := (digitsValue b run : Nat)
  (clampLong (if neg then -acc else acc), nptr.length - p3.length + run.length)

/-! ## `strtol0X` (`arg_int.c:54-109`) -/

/-- The source function `strtol0X(str, &end, X, base)`: the value and the
offset of `end` from `str`; offset `0` is the failure `*endptr == str`. -/
def strtol0X (str : List Char) (X : Char) (base : Int) : Int × Nat :=
  -- skip leading whitespace
  let ptr := str.dropWhile isspace
  -- scan optional sign character
  let s : Int := if peek ptr = '-' then -1 else 1
  let ptr := if peek ptr = '+' ∨ peek ptr = '-' then ptr.tail else ptr
  -- '0X' prefix
  if peek ptr ≠ '0' then (0, 0) else
  let ptr := ptr.tail
  if toupper (peek ptr) ≠ toupper X then (0, 0) else
  let ptr := ptr.tail
  -- attempt conversion on remainder of string using strtol()
  let r := strtol ptr base
  if r.2 = 0 then (0, 0) else
  (wrapLong (s * r.1), str.length - ptr.length + r.2)

/-! ## `detectsuffix` (`arg_int.c:114-141`) -/

/-- The source function `detectsuffix(str, suffix)`. -/
def detectsuffix : List Char → List Char → Int
  | [], suffix =>
    if toupper NUL = toupper (peek suffix) then 1
    else if peek suffix ≠ NUL then 0
    else 1
  | c :: str, suffix =>
    if toupper c = toupper (peek suffix) then
      if c = NUL then 1 else detectsuffix str suffix.tail
    else if peek suffix ≠ NUL then 0
    else if peek ((c :: str).dropWhile isspace) = NUL then 1 else 0

/-! ## The option instance -/

/-- The fields of `struct arg_hdr` that are data (the four callbacks are the
functions of this file). -/
structure arg_hdr where
  flag : Nat
  shortopts : Option String
  longopts : Option String
  datatype : Option String
  glossary : Option String
  mincount : Int
  maxcount : Int

/-- The source type `struct arg_int`: header, occurrence counter, value array. -/
structure arg_int where
  hdr : arg_hdr
  count : Int
  ival : Int → Int

/-- The source function `resetfn` (`arg_int.c:38-42`). -/
def resetfn (parent : arg_int) : arg_int :=
  { parent with count := 0 }

/-- The four conversions of `scanfn` (`arg_int.c:165-186`): hex, octal, binary,
then plain decimal, each tried only when the one before left `end == argval`.
The result is `val` and the offset of `end`, or `none` for the early
`return EBADINT`. -/
def scanfn_convert (argval : List Char) : Option (Int × Nat) :=
  -- attempt to extract hex integer (eg: +0x123)
  let r := strtol0X argval 'X' 16
  if r.2 = 0 then
    -- hex failed, attempt octal conversion (eg +0o123)
    let r := strtol0X argval 'O' 8
    if r.2 = 0 then
      -- octal failed, attempt binary conversion (eg +0B101)
      let r := strtol0X argval 'B' 2
      if r.2 = 0 then
        -- binary failed, attempt decimal conversion with no prefix (eg 1234)
        let r := strtol argval 10
        if r.2 = 0 then none else some r
      else some r
    else some r
  else some r

/-- The suffix stage of `scanfn` (`arg_int.c:188-217`): from `val` and the text
at `end` to the pair of `errorcode` and the possibly scaled `val`. -/
def scanfn_scale (val : Int) (rest : List Char) : Int × Int :=
  -- Safety check for integer overflow.
  let errorcode : Int := if val > INT_MAX ∨ val < INT_MIN then EOVERFLOW else 0
  if detectsuffix rest ['K', 'B'] ≠ 0 then
    if val > Int.tdiv INT_MAX 1024 ∨ val < Int.tdiv INT_MIN 1024 then (EOVERFLOW, val)
    else (errorcode, wrapLong (val * 1024))
  else if detectsuffix rest ['M', 'B'] ≠ 0 then
    if val > Int.tdiv INT_MAX 1048576 ∨ val < Int.tdiv INT_MIN 1048576 then (EOVERFLOW, val)
    else (errorcode, wrapLong (val * 1048576))
  else if detectsuffix rest ['G', 'B'] ≠ 0 then
    if val > Int.tdiv INT_MAX 1073741824 ∨ val < Int.tdiv INT_MIN 1073741824 then
      (EOVERFLOW, val)
    else (errorcode, wrapLong (val * 1073741824))
  else if detectsuffix rest [] = 0 then (EBADINT, val)
  else (errorcode, val)

/-- The source function `scanfn` (`arg_int.c:144-226`): the returned error
code and the instance after the call.  `argval = none` is the null pointer. -/
def scanfn (parent : arg_int) (argval : Option (List Char)) : Int × arg_int :=
  if parent.count = parent.hdr.maxcount then
    -- maximum number of arguments exceeded
    (EMAXCOUNT, parent)
  else
    match argval with
    | none =>
      -- leave parent argument value unaltered but still count the argument
      (0, { parent with count := wrapInt (parent.count + 1) })
    | some text =>
      match scanfn_convert text with
      | none => (EBADINT, parent)
      | some r =>
        let e := scanfn_scale r.1 (text.drop r.2)
        -- if success then store result in parent->ival[] array
        if e.1 = 0 then
          (0, { parent with
                  ival := Function.update parent.ival parent.count (wrapInt e.2)
                  count := wrapInt (parent.count + 1) })
        else (e.1, parent)

/-- The source function `checkfn` (`arg_int.c:228-233`): the error code and the
instance, which it does not write. -/
def checkfn (parent : arg_int) : Int × arg_int :=
  (if parent.count < parent.hdr.mincount then EMINCOUNT else 0, parent)

/-- The source function `arg_intn` (`arg_int.c:288-327`).  `ARG_HASVALUE` is a
constant of the header `argtable2.h`, which is not among the sources, and is
taken as a parameter.  `mem` is the outcome of `malloc`: `none` for a null
pointer, otherwise the (uninitialised) content of the fresh value array.  The
result is `none` exactly when the source returns the null pointer. -/
def arg_intn (ARG_HASVALUE : Nat) (mem : Option (Int → Int))
    (shortopts longopts datatype : Option String) (mincount maxcount : Int)
    (glossary : Option String) : Option arg_int :=
  -- foolproof things by ensuring maxcount is not less than mincount
  let maxcount := if maxcount < mincount then mincount else maxcount
  match mem with
  | none => none
  | some ival =>
    some ⟨⟨ARG_HASVALUE, shortopts, longopts, some (datatype.getD "<int>"), glossary,
      mincount, maxcount⟩, 0, ival⟩

/-- The source function `arg_int0` (`arg_int.c:271-277`). -/
def arg_int0 (ARG_HASVALUE : Nat) (mem : Option (Int → Int))
    (shortopts longopts datatype glossary : Option String) : Option arg_int :=
  arg_intn ARG_HASVALUE mem shortopts longopts datatype 0 1 glossary

/-- The source function `arg_int1` (`arg_int.c:279-285`). -/
def arg_int1 (ARG_HASVALUE : Nat) (mem : Option (Int → Int))
    (shortopts longopts datatype glossary : Option String) : Option arg_int :=
  arg_intn ARG_HASVALUE mem shortopts longopts datatype 1 1 glossary

/-! ## Vocabulary of the statements -/

/-- An optional sign: nothing, `+` or `-`. -/
def isSign (sg : List Char) : Prop := sg = [] ∨ sg = ['+'] ∨ sg = ['-']

/-- The factor a sign stands for. -/
def signValue (sg : List Char) : Int := if sg = ['-'] then -1 else 1

/-- The radix markers: `X`/`x` with base 16, `O`/`o` with base 8, `B`/`b` with base 2. -/
def isMarker (m : Char) (b : Nat) : Prop :=
  ((m = 'X' ∨ m = 'x') ∧ b = 16) ∨ ((m = 'O' ∨ m = 'o') ∧ b = 8) ∨
    ((m = 'B' ∨ m = 'b') ∧ b = 2)

/-- The number that the digit characters `ds`, most significant first, denote
in base `b`. -/
def denote (b : Nat) (ds : List Char) : Nat :=
  Nat.ofDigits b ((ds.map fun c => (digitval c).getD 0).reverse)

/-- The text at the cursor matches the suffix whose scale is `k`. -/
def suffixOfScale (rest : List Char) (k : Int) : Prop :=
  (detectsuffix rest ['K', 'B'] ≠ 0 ∧ k = 1024) ∨
    (detectsuffix rest ['M', 'B'] ≠ 0 ∧ k = 1048576) ∨
      (detectsuffix rest ['G', 'B'] ≠ 0 ∧ k = 1073741824)

/-- The instance after a scan that stores `v`: `v` is at index `count` of the
value array and `count` is one more; nothing else differs. -/
def stored (parent : arg_int) (v : Int) : arg_int :=
  { parent with
      ival := Function.update parent.ival parent.count v
      count := parent.count + 1 }

/-- An instance with room: `mincount = 1`, `maxcount = 3`, nothing scanned yet. -/
def sampleInstance : arg_int :=
  ⟨⟨2, none, none, some "<int>", none, 1, 3⟩, 0, fun _ => 0⟩

/-- An instance that is full: `maxcount = 3` and three values scanned. -/
def fullInstance : arg_int :=
  ⟨⟨2, none, none, some "<int>", none, 1, 3⟩, 3, fun i => if i = 0 then 7 else 0⟩

/-- The spelling `s` is a decimal or a prefixed literal of the integer `v`: an
optional sign, then either decimal digits, or `0`, a radix marker and digits of
the marker's base. -/
inductive isLiteral : List Char → Int → Prop
  | decimal (sg ds : List Char) : isSign sg → ds ≠ [] →
      (∀ c ∈ ds, isdigitIn 10 c = true) →
      isLiteral (sg ++ ds) (signValue sg * (denote 10 ds : Nat))
  | prefixed (m : Char) (b : Nat) (sg ds : List Char) : isSign sg → isMarker m b → ds ≠ [] →
      (∀ c ∈ ds, isdigitIn b c = true) →
      isLiteral (sg ++ '0' :: m :: ds) (signValue sg * (denote b ds : Nat))

/-- The two characters `c1 c2` spell `KB`, `MB` or `GB` in some mix of cases,
and `k` is the scale of that suffix. -/
def isUnitSuffix (c1 c2 : Char) (k : Int) : Prop :=
  (c2 = 'B' ∨ c2 = 'b') ∧
    (((c1 = 'K' ∨ c1 = 'k') ∧ k = 1024) ∨ ((c1 = 'M' ∨ c1 = 'm') ∧ k = 1048576) ∨
      ((c1 = 'G' ∨ c1 = 'g') ∧ k = 1073741824))

/-- One parse pass over the occurrences of the option: `scanfn` on each text in
order, as the framework calls it; the error codes are not kept. -/
def scanAll (parent : arg_int) (texts : List (List Char)) : arg_int :=
  texts.foldl (fun p t => (scanfn p (some t)).2) parent

/-- The text after the optional leading white space and the optional sign. -/
def skipSign (str : List Char) : List Char :=
  if peek (str.dropWhile isspace) = '+' ∨ peek (str.dropWhile isspace) = '-' then
    (str.dropWhile isspace).tail
  else str.dropWhile isspace

/-- The factor of the optional leading sign of a text: `-1` after `-`, else `1`. -/
def leadSign (str : List Char) : Int :=
  if peek (str.dropWhile isspace) = '-' then -1 else 1

/-- The scale that the text at the cursor selects: 1024, 1048576 or 1073741824
for a KB, MB or GB suffix, and 1 when there is none. -/
def scaleFactor (rest : List Char) : Int :=
  if detectsuffix rest ['K', 'B'] ≠ 0 then 1024
  else if detectsuffix rest ['M', 'B'] ≠ 0 then 1048576
  else if detectsuffix rest ['G', 'B'] ≠ 0 then 1073741824
  else 1

/-- The result of trying the given prefixed attempts in the order of the list
and taking the first whose cursor moved, with the decimal conversion
`fallback` when none did; `none` when that converts nothing either. -/
def firstSuccess (attempts : List (Int × Nat)) (fallback : Int × Nat) : Option (Int × Nat) :=
  match attempts.find? (fun r => decide (r.2 ≠ 0)) with
  | some r => some r
  | none => if fallback.2 = 0 then none else some fallback

/-- The text after the radix marker of a prefixed literal: what `strtol0X`
hands to `strtol`. -/
def afterMarker (str : List Char) : List Char := (skipSign str).tail.tail

/-- The text opens a hexadecimal prefix of `strtol`: base 16, then `0`, `x` or
`X`, and a hex digit. -/
def opensHexPrefix (b : Nat) (rest : List Char) : Prop :=
  b = 16 ∧ peek rest = '0' ∧ toupper (peek rest.tail) = 88 ∧
    isdigitIn 16 (peek rest.tail.tail) = true

/-! ## Arithmetic of the machine types -/

theorem wrapInt_of_int {x : Int} (h1 : INT_MIN ≤ x) (h2 : x ≤ INT_MAX) : wrapInt x = x := by
  unfold wrapInt
  unfold INT_MIN at h1
  unfold INT_MAX at h2
  omega

theorem wrapLong_of_long {x : Int} (h1 : LONG_MIN ≤ x) (h2 : x ≤ LONG_MAX) :
    wrapLong x = x := by
  unfold wrapLong
  unfold LONG_MIN at h1
  unfold LONG_MAX at h2
  omega

theorem wrapLong_small {x : Int} (h1 : -9223372036854775808 ≤ x)
    (h2 : x ≤ 9223372036854775807) : wrapLong x = x := by
  unfold wrapLong
  omega

theorem clampLong_of_long {x : Int} (h1 : LONG_MIN ≤ x) (h2 : x ≤ LONG_MAX) :
    clampLong x = x := by
  unfold clampLong
  rw [if_neg (by omega), if_neg (by omega)]

theorem clampLong_of_int {x : Int} (h1 : INT_MIN ≤ x) (h2 : x ≤ INT_MAX) :
    clampLong x = x := by
  unfold INT_MIN at h1
  unfold INT_MAX at h2
  unfold clampLong LONG_MIN LONG_MAX
  rw [if_neg (by omega), if_neg (by omega)]

/-! ## Characters -/

theorem peek_nil : peek [] = NUL := rfl

theorem peek_cons (c : Char) (s : List Char) : peek (c :: s) = c := rfl

theorem peek_append (l r : List Char) :
    peek (l ++ r) = if l = [] then peek r else peek l := by
  cases l <;> simp [peek]

theorem NUL_toNat : NUL.toNat = 0 := by decide

theorem isspace_plus : isspace '+' = false := by decide

theorem isspace_minus : isspace '-' = false := by decide

theorem isspace_zero : isspace '0' = false := by decide

theorem digitval_range {c : Char} {d : Nat} (h : digitval c = some d) :
    (48 ≤ c.toNat ∧ c.toNat ≤ 57 ∧ d = c.toNat - 48) ∨
    (97 ≤ c.toNat ∧ c.toNat ≤ 122 ∧ d = c.toNat - 87) ∨
    (65 ≤ c.toNat ∧ c.toNat ≤ 90 ∧ d = c.toNat - 55) := by
  unfold digitval at h
  split_ifs at h with h1 h2 h3
  · left; simp at h; omega
  · right; left; simp at h; omega
  · right; right; simp at h; omega

theorem isdigitIn_iff (b : Nat) (c : Char) :
    isdigitIn b c = true ↔ ∃ d, digitval c = some d ∧ d < b := by
  unfold isdigitIn
  cases h : digitval c <;> simp

theorem isdigitIn_range {b : Nat} {c : Char} (h : isdigitIn b c = true) (hb : b ≤ 16) :
    (48 ≤ c.toNat ∧ c.toNat ≤ 57) ∨ (97 ≤ c.toNat ∧ c.toNat ≤ 102) ∨
    (65 ≤ c.toNat ∧ c.toNat ≤ 70) := by
  obtain ⟨d, hd, hlt⟩ := (isdigitIn_iff b c).1 h
  rcases digitval_range hd with h1 | h1 | h1 <;> omega

theorem isdigitIn_mono {b b2 : Nat} {c : Char} (h : isdigitIn b c = true) (hb : b ≤ b2) :
    isdigitIn b2 c = true := by
  obtain ⟨d, hd, hlt⟩ := (isdigitIn_iff b c).1 h
  exact (isdigitIn_iff b2 c).2 ⟨d, hd, by omega⟩

theorem isdigitIn_false_of_le {b b2 : Nat} {c : Char} (h : isdigitIn b2 c = false)
    (hb : b ≤ b2) : isdigitIn b c = false := by
  cases h2 : isdigitIn b c
  · rfl
  · rw [isdigitIn_mono h2 hb] at h; exact absurd h (by simp)

theorem isspace_false_of_digit {b : Nat} {c : Char} (h : isdigitIn b c = true) (hb : b ≤ 16) :
    isspace c = false := by
  have := isdigitIn_range h hb
  unfold isspace
  simp
  omega

theorem ne_of_toNat_ne {c d : Char} (h : c.toNat ≠ d.toNat) : c ≠ d := by
  intro e; exact h (by rw [e])

theorem digit_ne_minus {b : Nat} {c : Char} (h : isdigitIn b c = true) (hb : b ≤ 16) :
    c ≠ '-' := by
  have := isdigitIn_range h hb
  apply ne_of_toNat_ne
  have : ('-' : Char).toNat = 45 := by decide
  omega

theorem digit_ne_plus {b : Nat} {c : Char} (h : isdigitIn b c = true) (hb : b ≤ 16) :
    c ≠ '+' := by
  have := isdigitIn_range h hb
  apply ne_of_toNat_ne
  have : ('+' : Char).toNat = 43 := by decide
  omega

theorem toupper_digit_range {b : Nat} {c : Char} (h : isdigitIn b c = true) (hb : b ≤ 16) :
    (48 ≤ toupper c ∧ toupper c ≤ 57) ∨ (65 ≤ toupper c ∧ toupper c ≤ 70) := by
  have := isdigitIn_range h hb
  unfold toupper
  split_ifs <;> omega

/-! ## Literals -/

theorem takeWhile_digits {b : Nat} {ds rest : List Char}
    (hall : ∀ c ∈ ds, isdigitIn b c = true) (hrest : isdigitIn b (peek rest) = false) :
    (ds ++ rest).takeWhile (isdigitIn b) = ds := by
  induction ds with
  | nil =>
    cases rest with
    | nil => rfl
    | cons c t =>
      rw [peek_cons] at hrest
      simp [List.takeWhile, hrest]
  | cons d ds ih =>
    have hd : isdigitIn b d = true := hall d (by simp)
    have ih2 := ih (fun c hc => hall c (by simp [hc]))
    simp [List.takeWhile, hd, ih2]

theorem strtol_literal (b : Nat) (hb2 : 2 ≤ b) (hb16 : b ≤ 16) (sg ds rest : List Char)
    (hsg : isSign sg) (hds : ds ≠ []) (hall : ∀ c ∈ ds, isdigitIn b c = true)
    (hrest : isdigitIn b (peek rest) = false) (hx : toupper (peek rest) ≠ 88) :
    strtol (sg ++ ds ++ rest) (b : Int)
      = (clampLong (signValue sg * (digitsValue b ds : Nat)), sg.length + ds.length) := by
  obtain ⟨d, ds1, rfl⟩ := List.exists_cons_of_ne_nil hds
  have hd : isdigitIn b d = true := hall d (by simp)
  have hsp := isspace_false_of_digit hd hb16
  have hm := digit_ne_minus hd hb16
  have hp := digit_ne_plus hd hb16
  have htw := takeWhile_digits hall hrest
  have hnx : toupper (peek (ds1 ++ rest)) ≠ 88 := by
    rw [peek_append]
    split_ifs with h
    · exact hx
    · obtain ⟨e, ds2, rfl⟩ := List.exists_cons_of_ne_nil h
      have he : isdigitIn b e = true := hall e (by simp)
      have := toupper_digit_range he hb16
      rw [peek_cons]; omega
  have hb0 : b ≠ 0 := by omega
  have hb1 : b ≠ 1 := by omega
  have hb36 : ¬ 36 < b := by omega
  have htw2 : List.takeWhile (isdigitIn b) (d :: (ds1 ++ rest)) = d :: ds1 := by
    simpa using htw
  rcases hsg with rfl | rfl | rfl
  · unfold strtol
    simp [hsp, peek_cons, hm, hp, hnx, signValue, hb0, hb1, hb36, htw2]
  · unfold strtol
    simp [hsp, peek_cons, hm, hp, hnx, signValue, hb0, hb1, hb36, htw2, isspace]
  · unfold strtol
    simp [hsp, peek_cons, hm, hp, hnx, signValue, hb0, hb1, hb36, htw2, isspace]

theorem strtol0X_prefixed (X m : Char) (b : Nat) (hb2 : 2 ≤ b) (hb16 : b ≤ 16)
    (sg ds rest : List Char) (hsg : isSign sg) (hmk : toupper m = toupper X)
    (hds : ds ≠ []) (hall : ∀ c ∈ ds, isdigitIn b c = true)
    (hrest : isdigitIn b (peek rest) = false) (hx : toupper (peek rest) ≠ 88) :
    strtol0X (sg ++ '0' :: m :: ds ++ rest) X (b : Int)
      = (wrapLong (signValue sg * clampLong (digitsValue b ds : Nat)),
          sg.length + 2 + ds.length) := by
  have h := strtol_literal b hb2 hb16 [] ds rest (Or.inl rfl) hds hall hrest hx
  simp [signValue] at h
  have hne : ds.length ≠ 0 := by
    intro e; exact hds (List.length_eq_zero.1 e)
  rcases hsg with rfl | rfl | rfl
  · unfold strtol0X
    simp [peek_cons, isspace, hmk, h, signValue, hne]
    omega
  · unfold strtol0X
    simp [peek_cons, isspace, hmk, h, signValue, hne]
    omega
  · unfold strtol0X
    simp [peek_cons, isspace, hmk, h, signValue, hne]
    omega

theorem strtol0X_marker_fail (X : Char) (base : Int) (sg t : List Char) (hsg : isSign sg)
    (hmk : toupper (peek t) ≠ toupper X) :
    strtol0X (sg ++ '0' :: t) X base = (0, 0) := by
  rcases hsg with rfl | rfl | rfl <;>
  · unfold strtol0X
    simp [peek_cons, isspace, hmk]

theorem strtol0X_decimal_fail (X : Char) (base : Int) (sg ds rest : List Char)
    (hsg : isSign sg) (hX : 65 ≤ toupper X) (hds : ds ≠ [])
    (hall : ∀ c ∈ ds, isdigitIn 10 c = true) (hr : toupper (peek rest) ≠ toupper X) :
    strtol0X (sg ++ ds ++ rest) X base = (0, 0) := by
  obtain ⟨d, ds1, rfl⟩ := List.exists_cons_of_ne_nil hds
  have hd : isdigitIn 10 d = true := hall d (by simp)
  by_cases h0 : d = '0'
  · subst h0
    have hmk : toupper (peek (ds1 ++ rest)) ≠ toupper X := by
      rw [peek_append]
      split_ifs with h
      · exact hr
      · obtain ⟨e, ds2, rfl⟩ := List.exists_cons_of_ne_nil h
        have he : isdigitIn 10 e = true := hall e (by simp)
        obtain ⟨v, hv, hlt⟩ := (isdigitIn_iff 10 e).1 he
        have hrg := digitval_range hv
        rw [peek_cons]
        unfold toupper at hX ⊢
        split_ifs at hX ⊢ <;> omega
    have := strtol0X_marker_fail X base sg (ds1 ++ rest) hsg hmk
    simpa using this
  · have hsp := isspace_false_of_digit hd (by omega)
    have hm := digit_ne_minus hd (by omega)
    have hp := digit_ne_plus hd (by omega)
    rcases hsg with rfl | rfl | rfl <;>
    · unfold strtol0X
      simp [peek_cons, isspace_plus, isspace_minus, hsp, hm, hp, h0]

theorem toupper_X : toupper 'X' = 88 := by decide

theorem toupper_O : toupper 'O' = 79 := by decide

theorem toupper_B : toupper 'B' = 66 := by decide

theorem convert_decimal (sg ds rest : List Char) (hsg : isSign sg) (hds : ds ≠ [])
    (hall : ∀ c ∈ ds, isdigitIn 10 c = true) (hrest : isdigitIn 10 (peek rest) = false)
    (h88 : toupper (peek rest) ≠ 88) (h79 : toupper (peek rest) ≠ 79)
    (h66 : toupper (peek rest) ≠ 66) :
    scanfn_convert (sg ++ ds ++ rest)
      = some (clampLong (signValue sg * (digitsValue 10 ds : Nat)), sg.length + ds.length) := by
  have hX := strtol0X_decimal_fail 'X' 16 sg ds rest hsg (by decide) hds hall
    (by rw [toupper_X]; exact h88)
  have hO := strtol0X_decimal_fail 'O' 8 sg ds rest hsg (by decide) hds hall
    (by rw [toupper_O]; exact h79)
  have hB := strtol0X_decimal_fail 'B' 2 sg ds rest hsg (by decide) hds hall
    (by rw [toupper_B]; exact h66)
  have hD := strtol_literal 10 (by omega) (by omega) sg ds rest hsg hds hall hrest h88
  have hne : ds.length ≠ 0 := by
    intro e; exact hds (List.length_eq_zero.1 e)
  unfold scanfn_convert
  simp only [hX, hO, hB]
  have hD2 : strtol (sg ++ ds ++ rest) 10
      = (clampLong (signValue sg * (digitsValue 10 ds : Nat)), sg.length + ds.length) := by
    simpa using hD
  rw [hD2]
  simp [hne]

theorem convert_prefixed (m : Char) (b : Nat) (sg ds rest : List Char) (hsg : isSign sg)
    (hmb : isMarker m b) (hds : ds ≠ []) (hall : ∀ c ∈ ds, isdigitIn b c = true)
    (hrest : isdigitIn b (peek rest) = false) (h88 : toupper (peek rest) ≠ 88) :
    scanfn_convert (sg ++ '0' :: m :: ds ++ rest)
      = some (wrapLong (signValue sg * clampLong (digitsValue b ds : Nat)),
          sg.length + 2 + ds.length) := by
  have key : ∀ (X : Char) (bb : Nat), 2 ≤ bb → bb ≤ 16 → toupper m = toupper X → bb = b →
      strtol0X (sg ++ '0' :: m :: ds ++ rest) X (bb : Int)
        = (wrapLong (signValue sg * clampLong (digitsValue b ds : Nat)),
            sg.length + 2 + ds.length) := by
    intro X bb h2 h16 hm hbb
    subst hbb
    exact strtol0X_prefixed X m bb h2 h16 sg ds rest hsg hm hds hall hrest h88
  have fail : ∀ (X : Char) (base : Int), toupper m ≠ toupper X →
      strtol0X (sg ++ '0' :: m :: ds ++ rest) X base = (0, 0) := by
    intro X base hm
    have := strtol0X_marker_fail X base sg (m :: ds ++ rest) hsg (by simpa [peek_cons] using hm)
    simpa using this
  have hne : ds.length ≠ 0 := by
    intro e; exact hds (List.length_eq_zero.1 e)
  unfold scanfn_convert
  simp only [List.append_assoc, List.cons_append] at fail ⊢
  rcases hmb with ⟨hm, rfl⟩ | ⟨hm, rfl⟩ | ⟨hm, rfl⟩
  · have h1 := key 'X' 16 (by omega) (by omega) (by rcases hm with rfl | rfl <;> decide) rfl
    simp only [Nat.cast_ofNat, List.append_assoc, List.cons_append] at h1
    simp [h1]
  · have h0 := fail 'X' 16 (by rcases hm with rfl | rfl <;> decide)
    have h1 := key 'O' 8 (by omega) (by omega) (by rcases hm with rfl | rfl <;> decide) rfl
    simp only [Nat.cast_ofNat, List.append_assoc, List.cons_append] at h1
    simp [h0, h1]
  · have h0 := fail 'X' 16 (by rcases hm with rfl | rfl <;> decide)
    have h00 := fail 'O' 8 (by rcases hm with rfl | rfl <;> decide)
    have h1 := key 'B' 2 (by omega) (by omega) (by rcases hm with rfl | rfl <;> decide) rfl
    simp only [Nat.cast_ofNat, List.append_assoc, List.cons_append] at h1
    simp [h0, h00, h1]

theorem digitsValue_append (b : Nat) (ds : List Char) (c : Char) :
    digitsValue b (ds ++ [c]) = digitsValue b ds * b + (digitval c).getD 0 := by
  simp [digitsValue, List.foldl_append]

theorem digitsValue_eq_denote (b : Nat) (ds : List Char) : digitsValue b ds = denote b ds := by
  induction ds using List.reverseRecOn with
  | nil => simp [digitsValue, denote]
  | append_singleton ds c ih =>
    rw [digitsValue_append, ih]
    simp [denote, Nat.ofDigits_cons]
    ring

/-! ## Suffix detection -/

theorem toupper_space {c : Char} (h : isspace c = true) : toupper c ≠ 0 := by
  unfold isspace at h
  unfold toupper
  simp at h
  split_ifs <;> omega

theorem detectsuffix_ws (w : List Char) (hw : ∀ c ∈ w, isspace c = true) :
    detectsuffix w [] = 1 := by
  cases w with
  | nil => decide
  | cons c t =>
    have hc : isspace c = true := hw c (by simp)
    have h0 := toupper_space hc
    have hdw : List.dropWhile isspace (c :: t) = [] := by
      rw [List.dropWhile_eq_nil_iff]
      exact hw
    have hN : toupper NUL = 0 := by decide
    unfold detectsuffix
    rw [hdw]
    simp [peek, hN, h0]

theorem detectsuffix_nil_cons (k : Char) (s : List Char) (hk : toupper k ≠ 0) :
    detectsuffix [] (k :: s) = 0 := by
  have hN : toupper NUL = 0 := by decide
  have hkN : k ≠ NUL := by
    intro e; rw [e] at hk; exact hk hN
  unfold detectsuffix
  simp [peek, hN, hkN, Ne.symm hk]

theorem detectsuffix_mismatch (c k : Char) (t s : List Char) (hk : toupper k ≠ 0)
    (hne : toupper c ≠ toupper k) : detectsuffix (c :: t) (k :: s) = 0 := by
  have hN : toupper NUL = 0 := by decide
  have hkN : k ≠ NUL := by
    intro e; rw [e] at hk; exact hk hN
  unfold detectsuffix
  simp [peek, hne, hkN]

theorem detectsuffix_step (c k : Char) (t s : List Char) (hk : toupper k ≠ 0)
    (he : toupper c = toupper k) : detectsuffix (c :: t) (k :: s) = detectsuffix t s := by
  have hN : toupper NUL = 0 := by decide
  have hcN : c ≠ NUL := by
    intro e; rw [e] at he; rw [← he] at hk; exact hk hN
  rw [detectsuffix]
  simp [peek, he, hcN]

theorem detectsuffix_first (rest s : List Char) (k : Char) (hk : toupper k ≠ 0)
    (h : detectsuffix rest (k :: s) ≠ 0) : toupper (peek rest) = toupper k := by
  cases rest with
  | nil => exact absurd (detectsuffix_nil_cons k s hk) h
  | cons c t =>
    by_contra hne
    exact h (detectsuffix_mismatch c k t s hk hne)

theorem tdiv_max_KB : Int.tdiv INT_MAX 1024 = 2097151 := by decide

theorem tdiv_min_KB : Int.tdiv INT_MIN 1024 = -2097152 := by decide

theorem tdiv_max_MB : Int.tdiv INT_MAX 1048576 = 2047 := by decide

theorem tdiv_min_MB : Int.tdiv INT_MIN 1048576 = -2048 := by decide

theorem tdiv_max_GB : Int.tdiv INT_MAX 1073741824 = 1 := by decide

theorem tdiv_min_GB : Int.tdiv INT_MIN 1073741824 = -2 := by decide

theorem scanfn_scale_suffix (v : Int) (rest : List Char) (k : Int)
    (hk : suffixOfScale rest k) (h1 : INT_MIN ≤ v) (h2 : v ≤ INT_MAX) :
    scanfn_scale v rest
      = if INT_MIN ≤ v * k ∧ v * k ≤ INT_MAX then (0, v * k) else (EOVERFLOW, v) := by
  have tK : toupper 'K' = 75 := by decide
  have tM : toupper 'M' = 77 := by decide
  have tG : toupper 'G' = 71 := by decide
  have e0 : (if v > INT_MAX ∨ v < INT_MIN then EOVERFLOW else (0 : Int)) = 0 := by
    rw [if_neg]; omega
  unfold scanfn_scale
  rw [e0, tdiv_max_KB, tdiv_min_KB, tdiv_max_MB, tdiv_min_MB, tdiv_max_GB, tdiv_min_GB]
  unfold INT_MIN INT_MAX at *
  rcases hk with ⟨hs, rfl⟩ | ⟨hs, rfl⟩ | ⟨hs, rfl⟩
  · rw [if_pos hs]
    by_cases hv : v > 2097151 ∨ v < -2097152
    · rw [if_pos hv, if_neg (by omega)]
    · rw [if_neg hv, if_pos (by omega), wrapLong_small (by omega) (by omega)]
  · have hf := detectsuffix_first rest ['B'] 'M' (by decide) hs
    have hK : detectsuffix rest ['K', 'B'] = 0 := by
      by_contra hne
      have := detectsuffix_first rest ['B'] 'K' (by decide) hne
      rw [hf, tK, tM] at this
      omega
    rw [if_neg (by simp [hK]), if_pos hs]
    by_cases hv : v > 2047 ∨ v < -2048
    · rw [if_pos hv, if_neg (by omega)]
    · rw [if_neg hv, if_pos (by omega), wrapLong_small (by omega) (by omega)]
  · have hf := detectsuffix_first rest ['B'] 'G' (by decide) hs
    have hK : detectsuffix rest ['K', 'B'] = 0 := by
      by_contra hne
      have := detectsuffix_first rest ['B'] 'K' (by decide) hne
      rw [hf, tK, tG] at this
      omega
    have hM : detectsuffix rest ['M', 'B'] = 0 := by
      by_contra hne
      have := detectsuffix_first rest ['B'] 'M' (by decide) hne
      rw [hf, tM, tG] at this
      omega
    rw [if_neg (by simp [hK]), if_neg (by simp [hM]), if_pos hs]
    by_cases hv : v > 1 ∨ v < -2
    · rw [if_pos hv, if_neg (by omega)]
    · rw [if_neg hv, if_pos (by omega), wrapLong_small (by omega) (by omega)]

theorem detectsuffix_ws_cons (w s : List Char) (k : Char) (hw : ∀ c ∈ w, isspace c = true)
    (hk : 65 ≤ toupper k) : detectsuffix w (k :: s) = 0 := by
  cases w with
  | nil => exact detectsuffix_nil_cons k s (by omega)
  | cons c t =>
    have hc : isspace c = true := hw c (by simp)
    apply detectsuffix_mismatch c k t s (by omega)
    unfold isspace at hc
    simp at hc
    intro e
    rw [← e] at hk
    unfold toupper at hk
    split_ifs at hk <;> omega

theorem scanfn_scale_plain (v : Int) (w : List Char) (hw : ∀ c ∈ w, isspace c = true) :
    scanfn_scale v w = (if v > INT_MAX ∨ v < INT_MIN then EOVERFLOW else 0, v) := by
  have hK := detectsuffix_ws_cons w ['B'] 'K' hw (by decide)
  have hM := detectsuffix_ws_cons w ['B'] 'M' hw (by decide)
  have hG := detectsuffix_ws_cons w ['B'] 'G' hw (by decide)
  have h0 := detectsuffix_ws w hw
  unfold scanfn_scale
  simp [hK, hM, hG, h0]

/-! ## The scan as a whole -/

theorem scanfn_of_convert (parent : arg_int) (text : List Char) (v : Int) (e : Nat)
    (hcount : parent.count ≠ parent.hdr.maxcount)
    (hconv : scanfn_convert text = some (v, e)) :
    scanfn parent (some text)
      = if (scanfn_scale v (text.drop e)).1 = 0 then
          (0, { parent with
                  ival := Function.update parent.ival parent.count
                    (wrapInt (scanfn_scale v (text.drop e)).2)
                  count := wrapInt (parent.count + 1) })
        else ((scanfn_scale v (text.drop e)).1, parent) := by
  unfold scanfn
  rw [if_neg hcount]
  simp only [hconv]

theorem scanfn_stores (parent : arg_int) (text : List Char) (v x : Int) (e : Nat)
    (hcount : parent.count < parent.hdr.maxcount) (hlo : INT_MIN ≤ parent.count)
    (hhi : parent.hdr.maxcount ≤ INT_MAX)
    (hconv : scanfn_convert text = some (v, e))
    (hscale : scanfn_scale v (text.drop e) = (0, x))
    (hx1 : INT_MIN ≤ x) (hx2 : x ≤ INT_MAX) :
    scanfn parent (some text) = (0, stored parent x) := by
  rw [scanfn_of_convert parent text v e (by omega) hconv, hscale]
  simp only [if_true]
  rw [wrapInt_of_int hx1 hx2, wrapInt_of_int (by omega) (by omega)]
  rfl

theorem scanfn_fails (parent : arg_int) (text : List Char) (v x c : Int) (e : Nat)
    (hcount : parent.count ≠ parent.hdr.maxcount)
    (hconv : scanfn_convert text = some (v, e))
    (hscale : scanfn_scale v (text.drop e) = (c, x)) (hc : c ≠ 0) :
    scanfn parent (some text) = (c, parent) := by
  rw [scanfn_of_convert parent text v e hcount hconv, hscale]
  simp [hc]

theorem peek_nil_facts : isdigitIn 16 (peek []) = false ∧ toupper (peek []) ≠ 88 ∧
    toupper (peek []) ≠ 79 ∧ toupper (peek []) ≠ 66 := by decide

theorem int_of_denote_le {n : Nat} {sv : Int} (hs : sv = 1 ∨ sv = -1)
    (h1 : INT_MIN ≤ sv * (n : Int)) (h2 : sv * (n : Int) ≤ INT_MAX) :
    (n : Int) ≤ 2147483648 := by
  unfold INT_MIN at h1
  unfold INT_MAX at h2
  rcases hs with rfl | rfl <;> omega

theorem signValue_cases (sg : List Char) : signValue sg = 1 ∨ signValue sg = -1 := by
  unfold signValue
  split_ifs
  · right; rfl
  · left; rfl

/-! ## Claims -/

theorem scanfn_decimal (parent : arg_int) (sg ds : List Char) (v : Int)
    (hcount : parent.count < parent.hdr.maxcount) (hlo : INT_MIN ≤ parent.count)
    (hhi : parent.hdr.maxcount ≤ INT_MAX)
    (hsg : isSign sg) (hds : ds ≠ []) (hall : ∀ c ∈ ds, isdigitIn 10 c = true)
    (hv : v = signValue sg * (denote 10 ds : Nat)) (hv1 : INT_MIN ≤ v) (hv2 : v ≤ INT_MAX) :
    scanfn parent (some (sg ++ ds)) = (0, stored parent v) := by
  obtain ⟨p1, p2, p3, p4⟩ := peek_nil_facts
  have hc := convert_decimal sg ds [] hsg hds hall (isdigitIn_false_of_le p1 (by omega)) p2 p3 p4
  rw [digitsValue_eq_denote, ← hv, List.append_nil] at hc
  rw [clampLong_of_int hv1 hv2] at hc
  apply scanfn_stores parent (sg ++ ds) v v _ hcount hlo hhi hc _ hv1 hv2
  have hdrop : List.drop (sg.length + ds.length) (sg ++ ds) = [] := by
    apply List.drop_of_length_le; simp
  rw [hdrop, scanfn_scale_plain v [] (by simp), if_neg (by omega)]

/-- C1: for every integer `v` of the `int` range and every plain decimal
spelling of `v` (an optional sign `sg`, then one or more decimal digits `ds`,
leading zeros allowed), `scanfn` on an instance with `count < maxcount`
returns 0, writes exactly `v` at `ival[count]` and increments `count`. -/
theorem C1_decimal_spelling_scans (parent : arg_int) (sg ds : List Char) (v : Int)
    (hcount : parent.count < parent.hdr.maxcount) (hlo : INT_MIN ≤ parent.count)
    (hhi : parent.hdr.maxcount ≤ INT_MAX)
    (hsg : isSign sg) (hds : ds ≠ []) (hall : ∀ c ∈ ds, isdigitIn 10 c = true)
    (hv : v = signValue sg * (denote 10 ds : Nat)) (hv1 : INT_MIN ≤ v) (hv2 : v ≤ INT_MAX) :
    scanfn parent (some (sg ++ ds)) = (0, stored parent v) :=
  scanfn_decimal parent sg ds v hcount hlo hhi hsg hds hall hv hv1 hv2

theorem C1_witness :
    scanfn sampleInstance (some ['-', '0', '0', '4', '2']) = (0, stored sampleInstance (-42)) :=
  C1_decimal_spelling_scans sampleInstance ['-'] ['0', '0', '4', '2'] (-42)
    (by decide) (by decide) (by decide) (Or.inr (Or.inr rfl)) (by decide) (by decide)
    (by decide) (by decide) (by decide)

theorem prefixed_raw (sg : List Char) (n : Nat) (v : Int) (hv : v = signValue sg * (n : Int))
    (hv1 : INT_MIN ≤ v) (hv2 : v ≤ INT_MAX) :
    wrapLong (signValue sg * clampLong (n : Int)) = v := by
  have hn := int_of_denote_le (signValue_cases sg) (hv ▸ hv1) (hv ▸ hv2)
  have hcl : clampLong (n : Int) = n := by
    unfold clampLong LONG_MIN LONG_MAX
    rw [if_neg (by omega), if_neg (by omega)]
  rw [hcl, ← hv]
  unfold INT_MIN at hv1
  unfold INT_MAX at hv2
  exact wrapLong_small (by omega) (by omega)

/-- C2: for every integer `v` of the `int` range and each prefixed form (an
optional sign `sg`, then `0`, then a marker `m` of base `b`, that is `X`/`x`
for 16, `O`/`o` for 8, `B`/`b` for 2, then one or more digits `ds` of that
base denoting `|v|`, hex digits in either case), `scanfn` on an instance with
`count < maxcount` returns 0 and stores exactly `v` at `ival[count]`. -/
theorem C2_prefixed_spelling_scans (parent : arg_int) (m : Char) (b : Nat)
    (sg ds : List Char) (v : Int)
    (hcount : parent.count < parent.hdr.maxcount) (hlo : INT_MIN ≤ parent.count)
    (hhi : parent.hdr.maxcount ≤ INT_MAX)
    (hsg : isSign sg) (hmb : isMarker m b) (hds : ds ≠ [])
    (hall : ∀ c ∈ ds, isdigitIn b c = true)
    (hv : v = signValue sg * (denote b ds : Nat)) (hv1 : INT_MIN ≤ v) (hv2 : v ≤ INT_MAX) :
    scanfn parent (some (sg ++ '0' :: m :: ds)) = (0, stored parent v) := by
  obtain ⟨p1, p2, -, -⟩ := peek_nil_facts
  have hb16 : b ≤ 16 := by
    rcases hmb with ⟨-, rfl⟩ | ⟨-, rfl⟩ | ⟨-, rfl⟩ <;> omega
  have hc := convert_prefixed m b sg ds [] hsg hmb hds hall (isdigitIn_false_of_le p1 hb16) p2
  rw [digitsValue_eq_denote, prefixed_raw sg (denote b ds) v hv hv1 hv2, List.append_nil] at hc
  apply scanfn_stores parent (sg ++ '0' :: m :: ds) v v _ hcount hlo hhi hc _ hv1 hv2
  have hdrop : List.drop (sg.length + 2 + ds.length) (sg ++ '0' :: m :: ds) = [] := by
    apply List.drop_of_length_le; simp; omega
  rw [hdrop, scanfn_scale_plain v [] (by simp), if_neg (by omega)]

theorem C2_witness :
    scanfn sampleInstance (some ['-', '0', 'x', '8', '0', '0', '0', '0', '0', '0', '0'])
      = (0, stored sampleInstance INT_MIN) :=
  C2_prefixed_spelling_scans sampleInstance 'x' 16 ['-'] ['8', '0', '0', '0', '0', '0', '0', '0']
    INT_MIN (by decide) (by decide) (by decide) (Or.inr (Or.inr rfl))
    (Or.inl ⟨Or.inr rfl, rfl⟩) (by decide) (by decide) (by decide) (by decide) (by decide)

theorem unitSuffix_inert {c1 c2 : Char} {k : Int} (h : isUnitSuffix c1 c2 k) :
    isdigitIn 16 c1 = false ∧ toupper c1 ≠ 88 ∧ toupper c1 ≠ 79 ∧ toupper c1 ≠ 66 := by
  obtain ⟨-, h1⟩ := h
  rcases h1 with ⟨h | h, -⟩ | ⟨h | h, -⟩ | ⟨h | h, -⟩ <;> subst h <;> decide

theorem unitSuffix_scale {c1 c2 : Char} {k : Int} (h : isUnitSuffix c1 c2 k)
    (w : List Char) (hw : ∀ c ∈ w, isspace c = true) : suffixOfScale (c1 :: c2 :: w) k := by
  obtain ⟨h2, h1⟩ := h
  have hB : toupper c2 = toupper 'B' := by
    rcases h2 with h | h <;> subst h <;> decide
  have h0 := detectsuffix_ws w hw
  have step : ∀ K : Char, toupper K ≠ 0 → toupper c1 = toupper K →
      detectsuffix (c1 :: c2 :: w) [K, 'B'] ≠ 0 := by
    intro K hK he
    rw [detectsuffix_step c1 K _ _ hK he, detectsuffix_step c2 'B' _ _ (by decide) hB, h0]
    decide
  rcases h1 with ⟨h, rfl⟩ | ⟨h, rfl⟩ | ⟨h, rfl⟩
  · exact Or.inl ⟨step 'K' (by decide) (by rcases h with h | h <;> subst h <;> decide), rfl⟩
  · exact Or.inr (Or.inl
      ⟨step 'M' (by decide) (by rcases h with h | h <;> subst h <;> decide), rfl⟩)
  · exact Or.inr (Or.inr
      ⟨step 'G' (by decide) (by rcases h with h | h <;> subst h <;> decide), rfl⟩)

theorem scale_pos_range {v k : Int} (hk : k = 1024 ∨ k = 1048576 ∨ k = 1073741824)
    (h1 : INT_MIN ≤ v * k) (h2 : v * k ≤ INT_MAX) : INT_MIN ≤ v ∧ v ≤ INT_MAX := by
  unfold INT_MIN at *
  unfold INT_MAX at *
  rcases hk with rfl | rfl | rfl <;> omega

theorem convert_literal (s rest : List Char) (v : Int) (hlit : isLiteral s v)
    (hv1 : INT_MIN ≤ v) (hv2 : v ≤ INT_MAX)
    (hrest : isdigitIn 16 (peek rest) = false)
    (h88 : toupper (peek rest) ≠ 88) (h79 : toupper (peek rest) ≠ 79)
    (h66 : toupper (peek rest) ≠ 66) :
    scanfn_convert (s ++ rest) = some (v, s.length) := by
  cases hlit with
  | decimal sg ds hsg hds hall =>
    have hc := convert_decimal sg ds rest hsg hds hall
      (isdigitIn_false_of_le hrest (by omega)) h88 h79 h66
    rw [digitsValue_eq_denote, clampLong_of_int hv1 hv2] at hc
    rw [hc, List.length_append]
  | prefixed m b sg ds hsg hmb hds hall =>
    have hb16 : b ≤ 16 := by
      rcases hmb with ⟨-, rfl⟩ | ⟨-, rfl⟩ | ⟨-, rfl⟩ <;> omega
    have hc := convert_prefixed m b sg ds rest hsg hmb hds hall
      (isdigitIn_false_of_le hrest hb16) h88
    rw [digitsValue_eq_denote, prefixed_raw sg (denote b ds) _ rfl hv1 hv2] at hc
    rw [hc]
    simp
    omega

/-- C3: for every literal `s` (decimal or prefixed) of a value `v`, every
suffix `c1 c2` among KB, MB, GB in any mix of cases, with scale `k`, and every
run `w` of trailing white space (possibly empty): if `v * k` lies in the `int`
range then `scanfn` on `s ++ c1 c2 ++ w` returns 0 and stores exactly `v * k`. -/
theorem C3_suffix_scales (parent : arg_int) (s w : List Char) (v k : Int) (c1 c2 : Char)
    (hcount : parent.count < parent.hdr.maxcount) (hlo : INT_MIN ≤ parent.count)
    (hhi : parent.hdr.maxcount ≤ INT_MAX)
    (hlit : isLiteral s v) (hsuf : isUnitSuffix c1 c2 k)
    (hw : ∀ c ∈ w, isspace c = true)
    (hr1 : INT_MIN ≤ v * k) (hr2 : v * k ≤ INT_MAX) :
    scanfn parent (some (s ++ [c1, c2] ++ w)) = (0, stored parent (v * k)) := by
  have hk : k = 1024 ∨ k = 1048576 ∨ k = 1073741824 := by
    rcases hsuf.2 with ⟨-, h⟩ | ⟨-, h⟩ | ⟨-, h⟩ <;> simp [h]
  obtain ⟨hv1, hv2⟩ := scale_pos_range hk hr1 hr2
  obtain ⟨i1, i2, i3, i4⟩ := unitSuffix_inert hsuf
  have hc := convert_literal s (c1 :: c2 :: w) v hlit hv1 hv2 i1 i2 i3 i4
  have hform : s ++ [c1, c2] ++ w = s ++ c1 :: c2 :: w := by simp
  rw [hform]
  apply scanfn_stores parent _ v (v * k) _ hcount hlo hhi hc _ hr1 hr2
  rw [List.drop_left, scanfn_scale_suffix v _ k (unitSuffix_scale hsuf w hw) hv1 hv2,
    if_pos ⟨hr1, hr2⟩]

theorem C3_witness :
    scanfn sampleInstance (some (['-', '0', 'b', '1', '0', '1'] ++ ['m', 'B'] ++ [' ', ' ']))
      = (0, stored sampleInstance (-5 * 1048576)) :=
  C3_suffix_scales sampleInstance ['-', '0', 'b', '1', '0', '1'] [' ', ' '] (-5) 1048576 'm' 'B'
    (by decide) (by decide) (by decide)
    (isLiteral.prefixed 'b' 2 ['-'] ['1', '0', '1'] (Or.inr (Or.inr rfl))
      (Or.inr (Or.inr ⟨Or.inr rfl, rfl⟩)) (by decide) (by decide))
    ⟨Or.inl rfl, Or.inr (Or.inl ⟨Or.inr rfl, rfl⟩)⟩ (by decide) (by decide) (by decide)

theorem scanfn_suffix (parent : arg_int) (text : List Char) (v k : Int) (e : Nat)
    (hcount : parent.count < parent.hdr.maxcount) (hlo : INT_MIN ≤ parent.count)
    (hhi : parent.hdr.maxcount ≤ INT_MAX)
    (hconv : scanfn_convert text = some (v, e)) (hv1 : INT_MIN ≤ v) (hv2 : v ≤ INT_MAX)
    (hsuf : suffixOfScale (text.drop e) k) :
    scanfn parent (some text)
      = if INT_MIN ≤ v * k ∧ v * k ≤ INT_MAX then (0, stored parent (v * k))
        else (EOVERFLOW, parent) := by
  have hs := scanfn_scale_suffix v (text.drop e) k hsuf hv1 hv2
  by_cases hr : INT_MIN ≤ v * k ∧ v * k ≤ INT_MAX
  · rw [if_pos hr] at hs ⊢
    exact scanfn_stores parent text v (v * k) e hcount hlo hhi hconv hs hr.1 hr.2
  · rw [if_neg hr] at hs ⊢
    exact scanfn_fails parent text v v EOVERFLOW e (by omega) hconv hs (by decide)

/-- C4: the scaling guard is exact.  When the converted value `v` is in the
`int` range and the text at the cursor matches the suffix of scale `k` (1024,
1048576 or 1073741824), `scanfn` returns `EOVERFLOW` if and only if the
product `v * k` is outside the `int` range, and otherwise it succeeds and
stores `v * k`.  So "2097151KB" stores 2147482624, "2097152KB" overflows and
"-2097152KB" stores `INT_MIN`. -/
theorem C4_scaling_guard_exact (parent : arg_int) (text : List Char) (v k : Int) (e : Nat)
    (hcount : parent.count < parent.hdr.maxcount) (hlo : INT_MIN ≤ parent.count)
    (hhi : parent.hdr.maxcount ≤ INT_MAX)
    (hconv : scanfn_convert text = some (v, e)) (hv1 : INT_MIN ≤ v) (hv2 : v ≤ INT_MAX)
    (hsuf : suffixOfScale (text.drop e) k) :
    ((scanfn parent (some text)).1 = EOVERFLOW ↔ (v * k < INT_MIN ∨ INT_MAX < v * k)) ∧
    (INT_MIN ≤ v * k ∧ v * k ≤ INT_MAX →
      scanfn parent (some text) = (0, stored parent (v * k))) ∧
    scanfn parent (some ['2', '0', '9', '7', '1', '5', '1', 'K', 'B'])
      = (0, stored parent 2147482624) ∧
    scanfn parent (some ['2', '0', '9', '7', '1', '5', '2', 'K', 'B'])
      = (EOVERFLOW, parent) ∧
    scanfn parent (some ['-', '2', '0', '9', '7', '1', '5', '2', 'K', 'B'])
      = (0, stored parent INT_MIN) := by
  have hgen := scanfn_suffix parent text v k e hcount hlo hhi hconv hv1 hv2 hsuf
  refine ⟨?_, ?_, ?_, ?_, ?_⟩
  · by_cases hr : INT_MIN ≤ v * k ∧ v * k ≤ INT_MAX
    · rw [hgen, if_pos hr]
      constructor
      · intro h; exact absurd (show (0 : Int) = EOVERFLOW from h) (by decide)
      · intro h; omega
    · rw [hgen, if_neg hr]
      constructor
      · intro _; omega
      · intro _; rfl
  · intro hr
    rw [hgen, if_pos hr]
  · have h := scanfn_suffix parent ['2', '0', '9', '7', '1', '5', '1', 'K', 'B'] 2097151 1024 7
      hcount hlo hhi (by decide) (by decide) (by decide) (Or.inl ⟨by decide, rfl⟩)
    rw [h, if_pos (by decide)]
    rfl
  · have h := scanfn_suffix parent ['2', '0', '9', '7', '1', '5', '2', 'K', 'B'] 2097152 1024 7
      hcount hlo hhi (by decide) (by decide) (by decide) (Or.inl ⟨by decide, rfl⟩)
    rw [h, if_neg (by decide)]
  · have h := scanfn_suffix parent ['-', '2', '0', '9', '7', '1', '5', '2', 'K', 'B']
      (-2097152) 1024 8
      hcount hlo hhi (by decide) (by decide) (by decide) (Or.inl ⟨by decide, rfl⟩)
    rw [h, if_pos (by decide)]
    rfl

theorem C4_witness :
    (scanfn sampleInstance (some ['0', 'x', '8', '0', '0', 'm', 'b'])).1 = EOVERFLOW
      ↔ ((2048 : Int) * 1048576 < INT_MIN ∨ INT_MAX < (2048 : Int) * 1048576) :=
  (C4_scaling_guard_exact sampleInstance ['0', 'x', '8', '0', '0', 'm', 'b'] 2048 1048576 5
    (by decide) (by decide) (by decide) (by decide) (by decide) (by decide)
    (Or.inr (Or.inl ⟨by decide, rfl⟩))).1

theorem clampLong_out_of_int {x : Int} (h : INT_MAX < x ∨ x < INT_MIN) :
    INT_MAX < clampLong x ∨ clampLong x < INT_MIN := by
  unfold INT_MIN INT_MAX at *
  unfold clampLong LONG_MIN LONG_MAX
  split_ifs <;> omega

theorem scanfn_decimal_overflow (parent : arg_int) (sg ds : List Char)
    (hcount : parent.count ≠ parent.hdr.maxcount)
    (hsg : isSign sg) (hds : ds ≠ []) (hall : ∀ c ∈ ds, isdigitIn 10 c = true)
    (hv : INT_MAX < signValue sg * (denote 10 ds : Nat) ∨
      signValue sg * (denote 10 ds : Nat) < INT_MIN) :
    scanfn parent (some (sg ++ ds)) = (EOVERFLOW, parent) := by
  obtain ⟨p1, p2, p3, p4⟩ := peek_nil_facts
  have hc := convert_decimal sg ds [] hsg hds hall (isdigitIn_false_of_le p1 (by omega)) p2 p3 p4
  rw [digitsValue_eq_denote, List.append_nil] at hc
  have hout := clampLong_out_of_int hv
  have hdrop : List.drop (sg.length + ds.length) (sg ++ ds) = [] := by
    apply List.drop_of_length_le; simp
  apply scanfn_fails parent (sg ++ ds) _ (clampLong (signValue sg * (denote 10 ds : Nat)))
    EOVERFLOW _ hcount hc _ (by decide)
  rw [hdrop, scanfn_scale_plain _ [] (by simp), if_pos (by omega)]

/-- C5: for every plain decimal literal (an optional sign `sg`, then one or
more digits `ds`, of any length, no suffix) denoting the integer `n`, `scanfn`
on an instance with `count < maxcount` returns 0 when `INT_MIN ≤ n ≤ INT_MAX`
and returns `EOVERFLOW` with the instance untouched otherwise; "2147483647"
succeeds and "2147483648" yields `EOVERFLOW`. -/
theorem C5_decimal_range_check (parent : arg_int) (sg ds : List Char)
    (hcount : parent.count < parent.hdr.maxcount) (hlo : INT_MIN ≤ parent.count)
    (hhi : parent.hdr.maxcount ≤ INT_MAX)
    (hsg : isSign sg) (hds : ds ≠ []) (hall : ∀ c ∈ ds, isdigitIn 10 c = true) :
    (INT_MIN ≤ signValue sg * (denote 10 ds : Nat) ∧
        signValue sg * (denote 10 ds : Nat) ≤ INT_MAX →
      (scanfn parent (some (sg ++ ds))).1 = 0) ∧
    (¬ (INT_MIN ≤ signValue sg * (denote 10 ds : Nat) ∧
        signValue sg * (denote 10 ds : Nat) ≤ INT_MAX) →
      scanfn parent (some (sg ++ ds)) = (EOVERFLOW, parent)) ∧
    (scanfn parent (some ['2', '1', '4', '7', '4', '8', '3', '6', '4', '7'])).1 = 0 ∧
    scanfn parent (some ['2', '1', '4', '7', '4', '8', '3', '6', '4', '8'])
      = (EOVERFLOW, parent) := by
  refine ⟨?_, ?_, ?_, ?_⟩
  · intro hr
    rw [scanfn_decimal parent sg ds _ hcount hlo hhi hsg hds hall rfl hr.1 hr.2]
  · intro hr
    apply scanfn_decimal_overflow parent sg ds (by omega) hsg hds hall
    omega
  · have h := scanfn_decimal parent [] ['2', '1', '4', '7', '4', '8', '3', '6', '4', '7']
      2147483647 hcount hlo hhi (Or.inl rfl) (by decide) (by decide) (by decide) (by decide)
      (by decide)
    rw [List.nil_append] at h
    rw [h]
  · exact scanfn_decimal_overflow parent [] ['2', '1', '4', '7', '4', '8', '3', '6', '4', '8']
      (by omega) (Or.inl rfl) (by decide) (by decide) (by decide)

theorem C5_witness :
    scanfn sampleInstance (some (['-'] ++ ['2', '1', '4', '7', '4', '8', '3', '6', '4', '9']))
      = (EOVERFLOW, sampleInstance) :=
  (C5_decimal_range_check sampleInstance ['-'] ['2', '1', '4', '7', '4', '8', '3', '6', '4', '9']
    (by decide) (by decide) (by decide) (Or.inr (Or.inr rfl)) (by decide) (by decide)).2.1
    (by decide)

theorem scanfn_scale_code (v : Int) (rest : List Char) :
    (scanfn_scale v rest).1 = 0 ∨ (scanfn_scale v rest).1 = EBADINT ∨
      (scanfn_scale v rest).1 = EOVERFLOW := by
  unfold scanfn_scale
  split_ifs <;> simp

theorem scanfn_scale_overflow (v : Int) (rest : List Char)
    (hv : INT_MAX < v ∨ v < INT_MIN) :
    scanfn_scale v rest
      = (if detectsuffix rest ['K', 'B'] ≠ 0 ∨ detectsuffix rest ['M', 'B'] ≠ 0 ∨
            detectsuffix rest ['G', 'B'] ≠ 0 ∨ detectsuffix rest [] ≠ 0
          then EOVERFLOW else EBADINT, v) := by
  unfold scanfn_scale
  rw [tdiv_max_KB, tdiv_min_KB, tdiv_max_MB, tdiv_min_MB, tdiv_max_GB, tdiv_min_GB]
  unfold INT_MIN INT_MAX at *
  split_ifs <;> first | rfl | omega

/-- C6, as stated, fails: "99999999999xyz" converts to 99999999999, which is
above `INT_MAX`, and `scanfn` returns `EBADINT`, not `EOVERFLOW`, because the
test of the empty suffix at `arg_int.c:216-217` overwrites the error code. -/
theorem C6_counterexample :
    ¬ (∀ (parent : arg_int) (text : List Char) (v : Int) (e : Nat),
        parent.count ≠ parent.hdr.maxcount → scanfn_convert text = some (v, e) →
        (INT_MAX < v ∨ v < INT_MIN) → (scanfn parent (some text)).1 = EOVERFLOW) := by
  intro h
  have h1 := h sampleInstance
    ['9', '9', '9', '9', '9', '9', '9', '9', '9', '9', '9', 'x', 'y', 'z'] 99999999999 11
    (by decide) (by decide) (by decide)
  have h2 : (scanfn sampleInstance
      (some ['9', '9', '9', '9', '9', '9', '9', '9', '9', '9', '9', 'x', 'y', 'z'])).1
        = EBADINT := by decide
  rw [h2] at h1
  exact absurd h1 (by decide)

/-- C6, amended: whenever the converted value `v` (before any scaling) lies
outside the `int` range, `scanfn` stores nothing and returns `EOVERFLOW` when
the text at the cursor is a KB, MB or GB suffix or is empty or white space
only, and returns `EBADINT` when that text is malformed. -/
theorem C6_overflow_unless_malformed (parent : arg_int) (text : List Char) (v : Int) (e : Nat)
    (hcount : parent.count ≠ parent.hdr.maxcount)
    (hconv : scanfn_convert text = some (v, e)) (hv : INT_MAX < v ∨ v < INT_MIN) :
    (scanfn parent (some text)).1
      = (if detectsuffix (text.drop e) ['K', 'B'] ≠ 0 ∨ detectsuffix (text.drop e) ['M', 'B'] ≠ 0 ∨
            detectsuffix (text.drop e) ['G', 'B'] ≠ 0 ∨ detectsuffix (text.drop e) [] ≠ 0
          then EOVERFLOW else EBADINT) ∧
    (scanfn parent (some text)).2 = parent := by
  have hs := scanfn_scale_overflow v (text.drop e) hv
  have hne : (if detectsuffix (text.drop e) ['K', 'B'] ≠ 0 ∨
      detectsuffix (text.drop e) ['M', 'B'] ≠ 0 ∨
      detectsuffix (text.drop e) ['G', 'B'] ≠ 0 ∨ detectsuffix (text.drop e) [] ≠ 0
      then EOVERFLOW else EBADINT) ≠ 0 := by
    split_ifs <;> decide
  rw [scanfn_fails parent text v v _ e hcount hconv hs hne]
  exact ⟨rfl, rfl⟩

theorem C6_witness :
    (scanfn sampleInstance
      (some ['9', '9', '9', '9', '9', '9', '9', '9', '9', '9', '9', 'g', 'b', ' '])).1
        = EOVERFLOW :=
  (C6_overflow_unless_malformed sampleInstance
    ['9', '9', '9', '9', '9', '9', '9', '9', '9', '9', '9', 'g', 'b', ' '] 99999999999 11
    (by decide) (by decide) (by decide)).1.trans (by decide)

/-- C7: `scanfn` returns `EMAXCOUNT` if and only if `count == maxcount` at the
time of the call, whatever the argument is (absent, a literal, garbage), and
in that case the instance is unchanged. -/
theorem C7_excess_iff_full (parent : arg_int) (argval : Option (List Char)) :
    ((scanfn parent argval).1 = EMAXCOUNT ↔ parent.count = parent.hdr.maxcount) ∧
    (parent.count = parent.hdr.maxcount → scanfn parent argval = (EMAXCOUNT, parent)) := by
  have hfull : parent.count = parent.hdr.maxcount → scanfn parent argval = (EMAXCOUNT, parent) := by
    intro h
    unfold scanfn
    rw [if_pos h]
  refine ⟨⟨?_, fun h => by rw [hfull h]⟩, hfull⟩
  intro h
  by_contra hne
  cases argval with
  | none =>
    unfold scanfn at h
    rw [if_neg hne] at h
    exact (by decide : ¬ ((0 : Int) = EMAXCOUNT)) h
  | some text =>
    cases hc : scanfn_convert text with
    | none =>
      unfold scanfn at h
      rw [if_neg hne] at h
      simp only [hc] at h
      exact absurd h (by decide)
    | some r =>
      obtain ⟨v, e⟩ := r
      rw [scanfn_of_convert parent text v e hne hc] at h
      have hcode := scanfn_scale_code v (text.drop e)
      split_ifs at h with h0
      · exact (by decide : ¬ ((0 : Int) = EMAXCOUNT)) h
      · simp only at h
        rw [h] at hcode
        revert hcode
        decide

theorem C7_witness :
    scanfn fullInstance (some ['1', '2']) = (EMAXCOUNT, fullInstance) :=
  (C7_excess_iff_full fullInstance (some ['1', '2'])).2 (by decide)

/-- C8: for every instance with `count < maxcount`, `scanfn` with no text
returns 0, increases `count` by exactly one and leaves every element of the
value array, `mincount` and `maxcount` unchanged. -/
theorem C8_absent_value_counts (parent : arg_int)
    (hcount : parent.count < parent.hdr.maxcount) (hlo : INT_MIN ≤ parent.count)
    (hhi : parent.hdr.maxcount ≤ INT_MAX) :
    (scanfn parent none).1 = 0 ∧
    (scanfn parent none).2.count = parent.count + 1 ∧
    (∀ i, (scanfn parent none).2.ival i = parent.ival i) ∧
    (scanfn parent none).2.hdr.mincount = parent.hdr.mincount ∧
    (scanfn parent none).2.hdr.maxcount = parent.hdr.maxcount := by
  unfold scanfn
  rw [if_neg (by omega)]
  refine ⟨rfl, ?_, fun _ => rfl, rfl, rfl⟩
  exact wrapInt_of_int (by omega) (by omega)

theorem C8_witness :
    (scanfn sampleInstance none).1 = 0 ∧
    (scanfn sampleInstance none).2.count = sampleInstance.count + 1 ∧
    (scanfn sampleInstance none).2.ival 0 = sampleInstance.ival 0 :=
  have h := C8_absent_value_counts sampleInstance (by decide) (by decide) (by decide)
  ⟨h.1, h.2.1, h.2.2.1 0⟩

/-- C9: atomicity on error.  For every instance and every argument, if
`scanfn` returns a non-zero error code then the instance is exactly as it was
before the call: `count` is unchanged and no element of the value array is
modified. -/
theorem C9_error_leaves_instance (parent : arg_int) (argval : Option (List Char))
    (herr : (scanfn parent argval).1 ≠ 0) : (scanfn parent argval).2 = parent := by
  by_cases hfull : parent.count = parent.hdr.maxcount
  · unfold scanfn
    rw [if_pos hfull]
  · cases argval with
    | none =>
      unfold scanfn at herr
      rw [if_neg hfull] at herr
      exact absurd rfl herr
    | some text =>
      cases hc : scanfn_convert text with
      | none =>
        unfold scanfn
        rw [if_neg hfull]
        simp only [hc]
      | some r =>
        obtain ⟨v, e⟩ := r
        rw [scanfn_of_convert parent text v e hfull hc] at herr ⊢
        split_ifs at herr ⊢ with h0
        · exact absurd rfl herr
        · rfl

theorem C9_witness :
    (scanfn sampleInstance (some ['0', 'x', 'g'])).2 = sampleInstance :=
  C9_error_leaves_instance sampleInstance (some ['0', 'x', 'g']) (by decide)

/-- C10: `checkfn` returns `EMINCOUNT` if and only if `count < mincount`,
returns 0 otherwise, and never modifies the instance. -/
theorem C10_checkfn (parent : arg_int) :
    ((checkfn parent).1 = EMINCOUNT ↔ parent.count < parent.hdr.mincount) ∧
    (¬ parent.count < parent.hdr.mincount → (checkfn parent).1 = 0) ∧
    (checkfn parent).2 = parent := by
  unfold checkfn
  refine ⟨?_, ?_, rfl⟩
  · by_cases h : parent.count < parent.hdr.mincount
    · simp [h]
    · simp only [if_neg h]
      constructor
      · intro h2; exact absurd h2 (by decide)
      · intro h2; exact absurd h2 h
  · intro h
    simp [h]

theorem C10_witness : (checkfn (scanfn sampleInstance none).2).1 = 0 :=
  (C10_checkfn (scanfn sampleInstance none).2).2.1 (by decide)

/-! ## Suffix detection, characterised -/

theorem eq_NUL_of_toNat {c : Char} (h : c.toNat = 0) : c = NUL := by
  have := Char.ofNat_toNat c
  rw [h] at this
  exact this.symm

theorem toupper_ne_zero {c : Char} (h : c ≠ NUL) : toupper c ≠ 0 := by
  have hn : c.toNat ≠ 0 := fun e => h (eq_NUL_of_toNat e)
  unfold toupper
  split_ifs <;> omega

theorem toupper_NUL : toupper NUL = 0 := by decide

theorem dropWhile_isspace_peek (str : List Char) (hs : ∀ c ∈ str, c ≠ NUL) :
    peek (str.dropWhile isspace) = NUL ↔ ∀ c ∈ str, isspace c = true := by
  induction str with
  | nil => simp [peek]
  | cons c cs ih =>
    have hc : c ≠ NUL := hs c (by simp)
    by_cases hsp : isspace c = true
    · rw [List.dropWhile_cons_of_pos hsp, ih (fun d hd => hs d (by simp [hd]))]
      simp [hsp]
    · rw [List.dropWhile_cons_of_neg hsp, peek_cons]
      constructor
      · intro e; exact absurd e hc
      · intro hall; exact absurd (hall c (by simp)) hsp

theorem detectsuffix_nil_right (str : List Char) (hs : ∀ c ∈ str, c ≠ NUL) :
    detectsuffix str [] = if ∀ c ∈ str, isspace c = true then 1 else 0 := by
  cases str with
  | nil => decide
  | cons c cs =>
    have hc : toupper c ≠ 0 := toupper_ne_zero (hs c (by simp))
    have hp := dropWhile_isspace_peek (c :: cs) hs
    unfold detectsuffix
    rw [peek_nil, toupper_NUL, if_neg hc, if_neg (by simp)]
    by_cases hall : ∀ d ∈ c :: cs, isspace d = true
    · rw [if_pos (hp.2 hall), if_pos hall]
    · rw [if_neg (fun e => hall (hp.1 e)), if_neg hall]

theorem detectsuffix_spec (str : List Char) :
    ∀ suffix : List Char, (∀ c ∈ str, c ≠ NUL) → (∀ c ∈ suffix, c ≠ NUL) →
      (detectsuffix str suffix = 1 ↔
        ∃ t w, str = t ++ w ∧ t.map toupper = suffix.map toupper ∧
          ∀ c ∈ w, isspace c = true) ∧
      (detectsuffix str suffix = 1 ∨ detectsuffix str suffix = 0) := by
  induction str with
  | nil =>
    intro suffix _ hf
    cases suffix with
    | nil =>
      refine ⟨⟨fun _ => ⟨[], [], rfl, rfl, by simp⟩, fun _ => by decide⟩, Or.inl (by decide)⟩
    | cons k s =>
      have hk := toupper_ne_zero (hf k (by simp))
      rw [detectsuffix_nil_cons k s hk]
      refine ⟨⟨fun h => absurd h (by decide), ?_⟩, Or.inr rfl⟩
      rintro ⟨t, w, h1, h2, -⟩
      have ht : t = [] := by
        cases t with
        | nil => rfl
        | cons a t => simp at h1
      rw [ht] at h2
      simp at h2
  | cons c cs ih =>
    intro suffix hs hf
    have hcs : ∀ d ∈ cs, d ≠ NUL := fun d hd => hs d (by simp [hd])
    cases suffix with
    | nil =>
      rw [detectsuffix_nil_right (c :: cs) hs]
      by_cases hall : ∀ d ∈ c :: cs, isspace d = true
      · rw [if_pos hall]
        exact ⟨⟨fun _ => ⟨[], c :: cs, rfl, rfl, hall⟩, fun _ => rfl⟩, Or.inl rfl⟩
      · rw [if_neg hall]
        refine ⟨⟨fun h => absurd h (by decide), ?_⟩, Or.inr rfl⟩
        rintro ⟨t, w, h1, h2, h3⟩
        have ht : t = [] := by simpa using h2
        rw [ht] at h1
        simp at h1
        rw [← h1] at h3
        exact absurd h3 hall
    | cons k s =>
      have hk := toupper_ne_zero (hf k (by simp))
      have hs2 : ∀ d ∈ s, d ≠ NUL := fun d hd => hf d (by simp [hd])
      by_cases he : toupper c = toupper k
      · rw [detectsuffix_step c k cs s hk he]
        obtain ⟨ih1, ih2⟩ := ih s hcs hs2
        refine ⟨?_, ih2⟩
        rw [ih1]
        constructor
        · rintro ⟨t, w, h1, h2, h3⟩
          exact ⟨c :: t, w, by simp [h1], by simp [h2, he], h3⟩
        · rintro ⟨t, w, h1, h2, h3⟩
          cases t with
          | nil => simp at h2
          | cons a t =>
            simp at h1 h2
            exact ⟨t, w, h1.2, h2.2, h3⟩
      · rw [detectsuffix_mismatch c k cs s hk he]
        refine ⟨⟨fun h => absurd h (by decide), ?_⟩, Or.inr rfl⟩
        rintro ⟨t, w, h1, h2, -⟩
        cases t with
        | nil => simp at h2
        | cons a t =>
          simp at h1 h2
          rw [← h1.1] at h2
          exact absurd h2.1 he

/-! ## Shape of the results of `scanfn` -/

theorem scanfn_convert_none (text : List Char) :
    scanfn_convert text = none ↔
      ((strtol0X text 'X' 16).2 = 0 ∧ (strtol0X text 'O' 8).2 = 0 ∧
        (strtol0X text 'B' 2).2 = 0 ∧ (strtol text 10).2 = 0) := by
  unfold scanfn_convert
  simp only []
  split_ifs with h1 h2 h3 h4 <;> simp [*]

theorem scanfn_scale_bad (v : Int) (rest : List Char) :
    (scanfn_scale v rest).1 = EBADINT ↔
      (detectsuffix rest ['K', 'B'] = 0 ∧ detectsuffix rest ['M', 'B'] = 0 ∧
        detectsuffix rest ['G', 'B'] = 0 ∧ detectsuffix rest [] = 0) := by
  have e1 : ¬ (EOVERFLOW = EBADINT) := by decide
  have e2 : ¬ ((0 : Int) = EBADINT) := by decide
  unfold scanfn_scale
  simp only []
  split_ifs <;> simp_all

theorem scanfn_scale_ok (v : Int) (rest : List Char) (h : (scanfn_scale v rest).1 = 0) :
    (scanfn_scale v rest).2 = v * scaleFactor rest ∧
      INT_MIN ≤ v * scaleFactor rest ∧ v * scaleFactor rest ≤ INT_MAX := by
  have e1 : ¬ (EOVERFLOW = (0 : Int)) := by decide
  have e2 : ¬ (EBADINT = (0 : Int)) := by decide
  unfold scanfn_scale at h ⊢
  unfold scaleFactor
  rw [tdiv_max_KB, tdiv_min_KB, tdiv_max_MB, tdiv_min_MB, tdiv_max_GB, tdiv_min_GB] at h ⊢
  unfold INT_MIN INT_MAX at *
  simp only [] at h ⊢
  split_ifs at h ⊢ <;> first
    | exact absurd h e1
    | exact absurd h e2
    | (refine ⟨wrapLong_small (by omega) (by omega), by omega, by omega⟩)
    | (refine ⟨by omega, by omega, by omega⟩)

theorem scanfn_shape (parent : arg_int) (argval : Option (List Char)) :
    scanfn parent argval = ((scanfn parent argval).1, parent) ∨
      (parent.count ≠ parent.hdr.maxcount ∧ (scanfn parent argval).1 = 0 ∧
        ∃ v, (scanfn parent argval).2
          = { parent with
                ival := Function.update parent.ival parent.count v
                count := wrapInt (parent.count + 1) }) := by
  by_cases hfull : parent.count = parent.hdr.maxcount
  · left
    unfold scanfn
    rw [if_pos hfull]
  · cases argval with
    | none =>
      right
      refine ⟨hfull, ?_, parent.ival parent.count, ?_⟩
      · unfold scanfn
        rw [if_neg hfull]
      · unfold scanfn
        rw [if_neg hfull]
        simp
    | some text =>
      cases hc : scanfn_convert text with
      | none =>
        left
        unfold scanfn
        rw [if_neg hfull]
        simp only [hc]
      | some r =>
        obtain ⟨v, e⟩ := r
        rw [scanfn_of_convert parent text v e hfull hc]
        by_cases h0 : (scanfn_scale v (List.drop e text)).1 = 0
        · right
          rw [if_pos h0]
          exact ⟨hfull, rfl, _, rfl⟩
        · left
          rw [if_neg h0]

/-! ## Structure of `strtol0X` -/

theorem strtol0X_eq (str : List Char) (X : Char) (base : Int) :
    strtol0X str X base =
      if peek (skipSign str) ≠ '0' then (0, 0)
      else if toupper (peek (skipSign str).tail) ≠ toupper X then (0, 0)
      else if (strtol (skipSign str).tail.tail base).2 = 0 then (0, 0)
      else (wrapLong (leadSign str * (strtol (skipSign str).tail.tail base).1),
        str.length - (skipSign str).tail.tail.length
          + (strtol (skipSign str).tail.tail base).2) := rfl

theorem strtol_nil (base : Int) : strtol [] base = (0, 0) := by
  unfold strtol
  split_ifs <;> simp

theorem dropWhile_length_le (f : Char → Bool) (l : List Char) :
    (l.dropWhile f).length ≤ l.length :=
  (List.dropWhile_sublist f).length_le

theorem takeWhile_length_le (f : Char → Bool) (l : List Char) :
    (l.takeWhile f).length ≤ l.length :=
  (List.takeWhile_sublist f).length_le

theorem skipSign_length (str : List Char) : (skipSign str).length ≤ str.length := by
  have h := dropWhile_length_le isspace str
  unfold skipSign
  split_ifs
  · rw [List.length_tail]; omega
  · exact h

theorem offset_bound (n : Nat) (l : List Char) (f : Char → Bool) (h : l.length ≤ n) :
    n - l.length + (l.takeWhile f).length ≤ n := by
  have := takeWhile_length_le f l
  omega

theorem strtol_offset_le (nptr : List Char) (base : Int) :
    (strtol nptr base).2 ≤ nptr.length := by
  have h1 := dropWhile_length_le isspace nptr
  unfold strtol
  simp only []
  split_ifs <;> first
    | exact Nat.zero_le _
    | (apply offset_bound; (try simp only [List.length_tail]); omega)

theorem strtol0X_offset_le (str : List Char) (X : Char) (base : Int) :
    (strtol0X str X base).2 ≤ str.length := by
  rw [strtol0X_eq]
  have h1 := skipSign_length str
  have h2 := strtol_offset_le (skipSign str).tail.tail base
  simp only [List.length_tail] at h2 ⊢
  split_ifs <;> simp only [Nat.zero_le]
  omega

theorem strtol0X_success (str : List Char) (X : Char) (base : Int)
    (h : (strtol0X str X base).2 ≠ 0) :
    peek (skipSign str) = '0' ∧ toupper (peek (skipSign str).tail) = toupper X ∧
      (strtol (skipSign str).tail.tail base).2 ≠ 0 ∧
      strtol0X str X base
        = (wrapLong (leadSign str * (strtol (skipSign str).tail.tail base).1),
            str.length - (skipSign str).tail.tail.length
              + (strtol (skipSign str).tail.tail base).2) := by
  rw [strtol0X_eq] at h ⊢
  split_ifs at h ⊢ with h1 h2 h3
  · exact absurd rfl h
  · exact absurd rfl h
  · exact absurd rfl h
  · exact ⟨not_not.1 h1, not_not.1 h2, h3, rfl⟩

theorem skipSign_suffix (str : List Char) : skipSign str <:+ str := by
  unfold skipSign
  split_ifs
  · exact (List.tail_suffix _).trans (List.dropWhile_suffix _)
  · exact List.dropWhile_suffix _

theorem skipSign_shape (str : List Char) (X : Char) (hX : toupper X ≠ 0)
    (h0 : peek (skipSign str) = '0') (hm : toupper (peek (skipSign str).tail) = toupper X) :
    ∃ pre m rest, str = pre ++ '0' :: m :: rest ∧ skipSign str = '0' :: m :: rest ∧
      toupper m = toupper X := by
  obtain ⟨pre, hpre⟩ := skipSign_suffix str
  cases hs : skipSign str with
  | nil =>
    rw [hs] at h0
    exact absurd h0 (by decide)
  | cons c t =>
    rw [hs, peek_cons] at h0
    subst h0
    cases t with
    | nil =>
      rw [hs] at hm
      simp only [List.tail_cons, peek_nil, toupper_NUL] at hm
      exact absurd hm.symm hX
    | cons m rest =>
      rw [hs] at hm hpre
      exact ⟨pre, m, rest, hpre.symm, rfl, hm⟩

theorem strtol_ten (str : List Char) :
    strtol str 10 =
      if ((skipSign str).takeWhile (isdigitIn 10)).length = 0 then (0, 0)
      else (clampLong (if peek (str.dropWhile isspace) = '-'
              then -((digitsValue 10 ((skipSign str).takeWhile (isdigitIn 10)) : Nat) : Int)
              else (digitsValue 10 ((skipSign str).takeWhile (isdigitIn 10)) : Nat)),
            str.length - (skipSign str).length
              + ((skipSign str).takeWhile (isdigitIn 10)).length) := by
  unfold strtol skipSign
  simp [or_comm]

theorem strtol_ten_at_marker (pre rest : List Char) (m : Char) (hm : 65 ≤ toupper m)
    (hs : skipSign (pre ++ '0' :: m :: rest) = '0' :: m :: rest) :
    strtol (pre ++ '0' :: m :: rest) 10 = (0, pre.length + 1) := by
  have hz : isdigitIn 10 '0' = true := by decide
  have hnm : isdigitIn 10 m = false := by
    cases h : isdigitIn 10 m
    · rfl
    · obtain ⟨d, hd, hlt⟩ := (isdigitIn_iff 10 m).1 h
      have h2 := digitval_range hd
      unfold toupper at hm
      split_ifs at hm <;> omega
  have htw : List.takeWhile (isdigitIn 10) ('0' :: m :: rest) = ['0'] := by
    simp [List.takeWhile, hz, hnm]
  have hv : digitsValue 10 ['0'] = 0 := by decide
  have hc : clampLong 0 = 0 := by decide
  rw [strtol_ten, hs, htw]
  simp [hv, hc]

theorem find_perm {l l2 : List (Int × Nat)} (hp : l2.Perm l)
    (huniq : ∀ a ∈ l, ∀ b ∈ l, a.2 ≠ 0 → b.2 ≠ 0 → a = b) :
    l2.find? (fun r => decide (r.2 ≠ 0)) = l.find? (fun r => decide (r.2 ≠ 0)) := by
  cases h : l.find? (fun r => decide (r.2 ≠ 0)) with
  | none =>
    rw [List.find?_eq_none] at h ⊢
    intro x hx
    exact h x (hp.mem_iff.1 hx)
  | some a =>
    have ha : a ∈ l := List.mem_of_find?_eq_some h
    have hpa := List.find?_some h
    cases h2 : l2.find? (fun r => decide (r.2 ≠ 0)) with
    | none =>
      rw [List.find?_eq_none] at h2
      exact absurd hpa (h2 a (hp.mem_iff.2 ha))
    | some b =>
      have hb : b ∈ l := hp.mem_iff.1 (List.mem_of_find?_eq_some h2)
      have hpb := List.find?_some h2
      simp only [decide_eq_true_eq] at hpa hpb
      rw [huniq b hb a ha hpb hpa]

theorem scanfn_convert_firstSuccess (str : List Char) :
    scanfn_convert str
      = firstSuccess [strtol0X str 'X' 16, strtol0X str 'O' 8, strtol0X str 'B' 2]
          (strtol str 10) := by
  unfold scanfn_convert firstSuccess
  simp only [List.find?]
  by_cases h1 : (strtol0X str 'X' 16).2 = 0
  · by_cases h2 : (strtol0X str 'O' 8).2 = 0
    · by_cases h3 : (strtol0X str 'B' 2).2 = 0
      · simp [h1, h2, h3]
      · simp [h1, h2, h3]
    · simp [h1, h2]
  · simp [h1]

theorem markers_exclusive (str : List Char) (X Y : Char) (b c : Int)
    (hne : toupper X ≠ toupper Y)
    (h : (strtol0X str X b).2 ≠ 0 ∧ (strtol0X str Y c).2 ≠ 0) : False := by
  obtain ⟨-, h1, -, -⟩ := strtol0X_success str X b h.1
  obtain ⟨-, h2, -, -⟩ := strtol0X_success str Y c h.2
  exact hne (h1.symm.trans h2)

theorem digit_facts {b : Nat} {c : Char} (h : isdigitIn b c = true) :
    isspace c = false ∧ c ≠ '-' ∧ c ≠ '+' := by
  obtain ⟨d, hd, -⟩ := (isdigitIn_iff b c).1 h
  have hr := digitval_range hd
  have e1 : ('-' : Char).toNat = 45 := by decide
  have e2 : ('+' : Char).toNat = 43 := by decide
  refine ⟨?_, ne_of_toNat_ne (by omega), ne_of_toNat_ne (by omega)⟩
  unfold isspace
  simp
  omega

theorem strtol_digit_first (rest : List Char) (b : Nat) (hb2 : 2 ≤ b) (hb36 : b ≤ 36)
    (hdig : isdigitIn b (peek rest) = true) (hnest : ¬ opensHexPrefix b rest) :
    rest.takeWhile (isdigitIn b) ≠ [] ∧
      strtol rest (b : Int)
        = (clampLong ((digitsValue b (rest.takeWhile (isdigitIn b)) : Nat) : Int),
            (rest.takeWhile (isdigitIn b)).length) := by
  cases rest with
  | nil => exact absurd hdig (by unfold isdigitIn; simp [peek, digitval, NUL_toNat])
  | cons c cs =>
    rw [peek_cons] at hdig
    obtain ⟨hsp, hm, hp⟩ := digit_facts hdig
    have hb0 : b ≠ 0 := by omega
    have hb1 : b ≠ 1 := by omega
    have hb3 : ¬ 36 < b := by omega
    have htw : List.takeWhile (isdigitIn b) (c :: cs)
        = c :: List.takeWhile (isdigitIn b) cs := by
      simp [List.takeWhile, hdig]
    have hn : ¬ (b = 16 ∧ (decide (c = '0') && decide (toupper (peek cs) = 88)
        && isdigitIn 16 (peek cs.tail)) = true) := by
      intro h
      apply hnest
      unfold opensHexPrefix
      simp only [Bool.and_eq_true, decide_eq_true_eq] at h
      exact ⟨h.1, h.2.1.1, h.2.1.2, h.2.2⟩
    refine ⟨by rw [htw]; simp, ?_⟩
    unfold strtol
    simp only [List.dropWhile_cons_of_neg (by simp [hsp] : ¬ isspace c = true), peek_cons,
      hm, hp, or_self, if_false, List.tail_cons]
    have c0 : ¬ ((b : Int) < 0 ∨ (b : Int) = 1 ∨ 36 < (b : Int)) := by omega
    have c1 : ¬ ((b : Int) = 0) := by omega
    rw [if_neg c0]
    simp only [if_neg c1, Int.toNat_ofNat, if_neg hn, htw]
    simp

theorem isdigitIn_NUL (b : Nat) : isdigitIn b NUL = false := by
  unfold isdigitIn
  simp [digitval, NUL_toNat]

theorem peek_dropWhile_digits (b : Nat) (l : List Char) :
    isdigitIn b (peek (l.dropWhile (isdigitIn b))) = false := by
  induction l with
  | nil => exact isdigitIn_NUL b
  | cons c cs ih =>
    by_cases h : isdigitIn b c = true
    · rw [List.dropWhile_cons_of_pos h]; exact ih
    · rw [List.dropWhile_cons_of_neg h, peek_cons]
      simpa using h

theorem leadSign_cases (str : List Char) : leadSign str = 1 ∨ leadSign str = -1 := by
  unfold leadSign
  split_ifs
  · right; rfl
  · left; rfl

theorem signed_clamp (sv : Int) (n : Nat) (hs : sv = 1 ∨ sv = -1) :
    ((n : Int) ≤ LONG_MAX → wrapLong (sv * clampLong (n : Int)) = sv * n) ∧
    (LONG_MAX < (n : Int) → wrapLong (sv * clampLong (n : Int)) = sv * LONG_MAX) := by
  unfold clampLong LONG_MIN LONG_MAX
  constructor
  · intro h
    rw [if_neg (by omega), if_neg (by omega)]
    rcases hs with rfl | rfl <;> exact wrapLong_small (by omega) (by omega)
  · intro h
    rw [if_pos (by omega)]
    rcases hs with rfl | rfl <;> exact wrapLong_small (by omega) (by omega)

/-! ## A pass over several occurrences -/

theorem scanfn_full (parent : arg_int) (argval : Option (List Char))
    (h : parent.count = parent.hdr.maxcount) : scanfn parent argval = (EMAXCOUNT, parent) := by
  unfold scanfn
  rw [if_pos h]

theorem scanfn_transfer (q p : arg_int) (t : List Char)
    (hq : (scanfn q (some t)).1 = 0)
    (hcount : p.count < p.hdr.maxcount) (hlo : INT_MIN ≤ p.count)
    (hhi : p.hdr.maxcount ≤ INT_MAX) :
    scanfn p (some t) = (0, stored p ((scanfn q (some t)).2.ival q.count)) := by
  have hne : q.count ≠ q.hdr.maxcount := by
    intro hfull
    rw [scanfn_full q (some t) hfull] at hq
    exact absurd hq (by decide : ¬ (EMAXCOUNT = (0 : Int)))
  cases hc : scanfn_convert t with
  | none =>
    unfold scanfn at hq
    rw [if_neg hne] at hq
    simp only [hc] at hq
    exact absurd hq (by decide : ¬ (EBADINT = (0 : Int)))
  | some r =>
    obtain ⟨v, e⟩ := r
    rw [scanfn_of_convert q t v e hne hc] at hq ⊢
    by_cases h0 : (scanfn_scale v (List.drop e t)).1 = 0
    · obtain ⟨k1, k2, k3⟩ := scanfn_scale_ok v (t.drop e) h0
      rw [if_pos h0]
      simp only [Function.update_same]
      rw [k1, wrapInt_of_int k2 k3]
      apply scanfn_stores p t v _ e hcount hlo hhi hc _ k2 k3
      rw [← k1, ← h0]
    · rw [if_neg h0] at hq
      exact absurd hq h0

theorem scanAll_cons (p : arg_int) (t : List Char) (ts : List (List Char)) :
    scanAll p (t :: ts) = scanAll (scanfn p (some t)).2 ts := rfl

theorem scanAll_run (q : arg_int) (hq0 : q.count = 0) (texts : List (List Char)) :
    ∀ (vs : List Int) (p : arg_int) (n : Nat), p.count = n →
      (n : Int) + texts.length ≤ p.hdr.maxcount → p.hdr.maxcount ≤ INT_MAX →
      List.Forall₂ (fun t v => (scanfn q (some t)).1 = 0 ∧ (scanfn q (some t)).2.ival 0 = v)
        texts vs →
      (scanAll p texts).count = (n : Int) + texts.length ∧
      (scanAll p texts).hdr = p.hdr ∧
      (∀ (i : Nat) (h : i < vs.length), (scanAll p texts).ival ((n : Int) + i) = vs[i]) ∧
      (∀ j : Int, (j < n ∨ (n : Int) + texts.length ≤ j) → (scanAll p texts).ival j = p.ival j) := by
  induction texts with
  | nil =>
    intro vs p n hn _ _ hF
    cases hF
    refine ⟨by simp [scanAll, hn], rfl, ?_, fun _ _ => rfl⟩
    intro i h
    simp at h
  | cons t ts ih =>
    intro vs p n hn hroom hmax hF
    cases hF with
    | cons hR hrest =>
      rename_i v vs2
      have hstep : scanfn p (some t) = (0, stored p v) := by
        have := scanfn_transfer q p t hR.1 (by simp at hroom; omega)
          (by unfold INT_MIN; omega) hmax
        rw [hq0, hR.2] at this
        exact this
      rw [scanAll_cons, hstep]
      have hlen : ((t :: ts).length : Int) = (ts.length : Int) + 1 := by simp
      obtain ⟨i1, i2, i3, i4⟩ := ih vs2 (stored p v) (n + 1)
        (by show p.count + 1 = ((n + 1 : Nat) : Int); rw [hn]; simp)
        (by show ((n + 1 : Nat) : Int) + ts.length ≤ p.hdr.maxcount; rw [hlen] at hroom
            push_cast; omega)
        hmax hrest
      refine ⟨?_, i2, ?_, ?_⟩
      · rw [i1, hlen]; push_cast; omega
      · intro i h
        cases i with
        | zero =>
          have := i4 (n : Int) (Or.inl (by push_cast; omega))
          simp only [Nat.cast_zero, add_zero, List.getElem_cons_zero]
          rw [this]
          show Function.update p.ival p.count v (n : Int) = v
          rw [hn, Function.update_same]
        | succ k =>
          have hk : k < vs2.length := by simpa using h
          have := i3 k hk
          simp only [List.getElem_cons_succ]
          rw [← this]
          congr 1
          push_cast
          omega
      · intro j hj
        have := i4 j (by rw [hlen] at hj; push_cast; omega)
        rw [this]
        show Function.update p.ival p.count v j = p.ival j
        rw [hn]
        apply Function.update_noteq
        rw [hlen] at hj
        omega

/-! ## Claims on the instance, the suffix detector and the prefixed attempt -/

/-- C11: after `resetfn` the count is 0 whatever it was before; `resetfn` is
idempotent; and it changes nothing else: the stored values, `mincount` and
`maxcount` (the whole header) are as before. -/
theorem C11_resetfn (parent : arg_int) :
    (resetfn parent).count = 0 ∧
    resetfn (resetfn parent) = resetfn parent ∧
    (resetfn parent).ival = parent.ival ∧
    (resetfn parent).hdr = parent.hdr ∧
    (resetfn parent).hdr.mincount = parent.hdr.mincount ∧
    (resetfn parent).hdr.maxcount = parent.hdr.maxcount :=
  ⟨rfl, rfl, rfl, rfl, rfl, rfl⟩

/-- C12: for every instance with `maxcount = m` (a C `int`) and every list of
`k ≤ m` texts that each scan successfully, on the reset instance, to the values
`vs`: after `resetfn` and `scanfn` on those texts in order, `count = k`, the
value at index `i` is `vs[i]` for every `i < k` (occurrence order), the slots
outside `[0, k)` and the header are untouched; when `k = m` a further `scanfn`,
with any argument, returns `EMAXCOUNT`; and `checkfn` then returns 0 exactly
when `mincount ≤ k`, and `EMINCOUNT` otherwise. -/
theorem C12_occurrences_in_order (parent : arg_int) (texts : List (List Char))
    (vs : List Int) (hmax : parent.hdr.maxcount ≤ INT_MAX)
    (hk : (texts.length : Int) ≤ parent.hdr.maxcount)
    (hscan : List.Forall₂
      (fun t v => (scanfn (resetfn parent) (some t)).1 = 0 ∧
        (scanfn (resetfn parent) (some t)).2.ival 0 = v) texts vs) :
    (scanAll (resetfn parent) texts).count = texts.length ∧
    (∀ (i : Nat) (h : i < vs.length), (scanAll (resetfn parent) texts).ival i = vs[i]) ∧
    (∀ j : Int, (j < 0 ∨ (texts.length : Int) ≤ j) →
      (scanAll (resetfn parent) texts).ival j = parent.ival j) ∧
    (scanAll (resetfn parent) texts).hdr = parent.hdr ∧
    ((texts.length : Int) = parent.hdr.maxcount →
      ∀ a, scanfn (scanAll (resetfn parent) texts) a
        = (EMAXCOUNT, scanAll (resetfn parent) texts)) ∧
    ((checkfn (scanAll (resetfn parent) texts)).1 = 0 ↔
      parent.hdr.mincount ≤ texts.length) ∧
    ((checkfn (scanAll (resetfn parent) texts)).1 = EMINCOUNT ↔
      (texts.length : Int) < parent.hdr.mincount) := by
  obtain ⟨r1, r2, r3, r4⟩ := scanAll_run (resetfn parent) rfl texts vs (resetfn parent) 0 rfl
    (by simpa using hk) hmax hscan
  simp only [Nat.cast_zero, zero_add] at r1 r3 r4
  have r2b : (scanAll (resetfn parent) texts).hdr = parent.hdr := r2
  refine ⟨r1, r3, r4, r2b, ?_, ?_, ?_⟩
  · intro hfull a
    apply scanfn_full
    rw [r1, r2b, hfull]
  · unfold checkfn
    simp only [r1, r2b]
    split_ifs with h
    · exact ⟨fun e => absurd e (by decide), fun e => absurd h (by omega)⟩
    · exact ⟨fun _ => by omega, fun _ => rfl⟩
  · unfold checkfn
    simp only [r1, r2b]
    split_ifs with h
    · exact ⟨fun _ => h, fun _ => rfl⟩
    · exact ⟨fun e => absurd e (by decide), fun e => absurd e h⟩

theorem C12_witness :
    ((scanAll (resetfn sampleInstance) [['1'], ['0', 'x', '1', '0'], ['2', 'K', 'B']]).count = 3 ∧
      scanfn (scanAll (resetfn sampleInstance) [['1'], ['0', 'x', '1', '0'], ['2', 'K', 'B']])
          (some ['4'])
        = (EMAXCOUNT,
            scanAll (resetfn sampleInstance) [['1'], ['0', 'x', '1', '0'], ['2', 'K', 'B']]) ∧
      (checkfn
        (scanAll (resetfn sampleInstance) [['1'], ['0', 'x', '1', '0'], ['2', 'K', 'B']])).1
          = 0) ∧
    (checkfn (scanAll (resetfn sampleInstance) [])).1 = EMINCOUNT :=
  have h3 := C12_occurrences_in_order sampleInstance
    [['1'], ['0', 'x', '1', '0'], ['2', 'K', 'B']] [1, 16, 2048] (by decide) (by decide)
    (List.Forall₂.cons ⟨by decide, by decide⟩
      (List.Forall₂.cons ⟨by decide, by decide⟩
        (List.Forall₂.cons ⟨by decide, by decide⟩ List.Forall₂.nil)))
  have h0 := C12_occurrences_in_order sampleInstance [] [] (by decide) (by decide)
    List.Forall₂.nil
  ⟨⟨h3.1, h3.2.2.2.2.1 (by decide) (some ['4']), h3.2.2.2.2.2.1.2 (by decide)⟩,
    h0.2.2.2.2.2.2.2 (by decide)⟩

/-- C13: for C strings `str` and `suffix` (no terminator inside),
`detectsuffix str suffix` returns 1 if and only if `str` splits as `t ++ w`
where `t` has the length of `suffix` and equals it character by character
under `toupper`, and `w` is white space only (possibly empty); it returns 0
otherwise.  With the empty suffix it returns 1 exactly when `str` is empty or
white space only, and "K" against "KB" returns 0. -/
theorem C13_detectsuffix (str suffix : List Char)
    (hs : ∀ c ∈ str, c ≠ NUL) (hf : ∀ c ∈ suffix, c ≠ NUL) :
    (detectsuffix str suffix = 1 ↔
      ∃ t w, str = t ++ w ∧ t.length = suffix.length ∧
        t.map toupper = suffix.map toupper ∧ ∀ c ∈ w, isspace c = true) ∧
    ((¬ ∃ t w, str = t ++ w ∧ t.length = suffix.length ∧
        t.map toupper = suffix.map toupper ∧ ∀ c ∈ w, isspace c = true) →
      detectsuffix str suffix = 0) ∧
    (detectsuffix str [] = 1 ↔ ∀ c ∈ str, isspace c = true) ∧
    detectsuffix ['K'] ['K', 'B'] = 0 := by
  obtain ⟨h1, h2⟩ := detectsuffix_spec str suffix hs hf
  have hiff : detectsuffix str suffix = 1 ↔
      ∃ t w, str = t ++ w ∧ t.length = suffix.length ∧
        t.map toupper = suffix.map toupper ∧ ∀ c ∈ w, isspace c = true := by
    rw [h1]
    constructor
    · rintro ⟨t, w, a, b, c⟩
      refine ⟨t, w, a, ?_, b, c⟩
      have := congrArg List.length b
      simpa using this
    · rintro ⟨t, w, a, -, b, c⟩
      exact ⟨t, w, a, b, c⟩
  refine ⟨hiff, ?_, ?_, by decide⟩
  · intro hn
    rcases h2 with h | h
    · exact absurd (hiff.1 h) hn
    · exact h
  · rw [detectsuffix_nil_right str hs]
    by_cases hall : ∀ c ∈ str, isspace c = true
    · simp [hall]
    · rw [if_neg hall]
      exact ⟨fun h => absurd h (by decide), fun h => absurd h hall⟩

theorem C13_witness : detectsuffix ['k', 'b', ' ', ' '] ['K', 'B'] = 1 :=
  (C13_detectsuffix ['k', 'b', ' ', ' '] ['K', 'B'] (by decide) (by decide)).1.2
    ⟨['k', 'b'], [' ', ' '], rfl, rfl, by decide, by decide⟩

/-- C14: for every instance with `count < maxcount` and every present text,
`scanfn` returns `EBADINT` if and only if either none of the four attempts
(hex, octal, binary, decimal) consumes a character, or the text left at the
cursor after the literal is neither a KB, MB or GB suffix nor empty or white
space only.  (The claim restricts this to raw values within the `int` range;
the equivalence holds without that restriction.)  "0xg" fails hex, octal and
binary, is read as decimal 0 with "xg" left over and yields `EBADINT`; ""
and "abc" yield `EBADINT`. -/
theorem C14_invalid_integer_iff (parent : arg_int) (text : List Char)
    (hcount : parent.count < parent.hdr.maxcount) :
    ((scanfn parent (some text)).1 = EBADINT ↔
      ((strtol0X text 'X' 16).2 = 0 ∧ (strtol0X text 'O' 8).2 = 0 ∧
        (strtol0X text 'B' 2).2 = 0 ∧ (strtol text 10).2 = 0) ∨
      ∃ v e, scanfn_convert text = some (v, e) ∧
        detectsuffix (text.drop e) ['K', 'B'] = 0 ∧ detectsuffix (text.drop e) ['M', 'B'] = 0 ∧
        detectsuffix (text.drop e) ['G', 'B'] = 0 ∧ detectsuffix (text.drop e) [] = 0) ∧
    ((strtol0X ['0', 'x', 'g'] 'X' 16).2 = 0 ∧ (strtol0X ['0', 'x', 'g'] 'O' 8).2 = 0 ∧
      (strtol0X ['0', 'x', 'g'] 'B' 2).2 = 0 ∧ strtol ['0', 'x', 'g'] 10 = (0, 1) ∧
      scanfn parent (some ['0', 'x', 'g']) = (EBADINT, parent)) ∧
    scanfn parent (some []) = (EBADINT, parent) ∧
    scanfn parent (some ['a', 'b', 'c']) = (EBADINT, parent) := by
  have hne : parent.count ≠ parent.hdr.maxcount := by omega
  have hnone : ∀ t, scanfn_convert t = none → scanfn parent (some t) = (EBADINT, parent) := by
    intro t ht
    unfold scanfn
    rw [if_neg hne]
    simp only [ht]
  refine ⟨?_, ⟨by decide, by decide, by decide, by decide, ?_⟩, hnone [] (by decide),
    hnone ['a', 'b', 'c'] (by decide)⟩
  · cases hc : scanfn_convert text with
    | none =>
      rw [hnone text hc]
      exact ⟨fun _ => Or.inl ((scanfn_convert_none text).1 hc), fun _ => rfl⟩
    | some r =>
      obtain ⟨v, e⟩ := r
      have hnn : ¬ ((strtol0X text 'X' 16).2 = 0 ∧ (strtol0X text 'O' 8).2 = 0 ∧
          (strtol0X text 'B' 2).2 = 0 ∧ (strtol text 10).2 = 0) := by
        intro h
        rw [(scanfn_convert_none text).2 h] at hc
        exact absurd hc (by simp)
      have hcode : (scanfn parent (some text)).1 = EBADINT ↔
          (scanfn_scale v (text.drop e)).1 = EBADINT := by
        rw [scanfn_of_convert parent text v e hne hc]
        split_ifs with h0
        · rw [h0]
        · rfl
      rw [hcode, scanfn_scale_bad]
      constructor
      · intro h
        exact Or.inr ⟨v, e, rfl, h⟩
      · rintro (h | ⟨v2, e2, h1, h2⟩)
        · exact absurd h hnn
        · simp only [Option.some.injEq, Prod.mk.injEq] at h1
          obtain ⟨rfl, rfl⟩ := h1
          exact h2
  · exact scanfn_fails parent ['0', 'x', 'g'] 0 0 EBADINT 1 hne (by decide) (by decide)
      (by decide)

theorem C14_witness : (scanfn sampleInstance (some ['1', '2', 'k'])).1 = EBADINT :=
  (C14_invalid_integer_iff sampleInstance ['1', '2', 'k'] (by decide)).1.2
    (Or.inr ⟨12, 2, by decide, by decide, by decide, by decide, by decide⟩)

/-- C15, as stated, fails: the text after the marker is handed to `strtol`,
which skips white space, takes a sign and, in base 16, a further `0x`.  So
"0x-5" succeeds although `-` follows the marker, and its value is -5; "0x 5"
and "0x0x5" succeed with value 5; and a run of seventeen `F` does not yield
its own value but `LONG_MAX`. -/
theorem C15_counterexample :
    ¬ (∀ (str : List Char) (X : Char) (b : Nat), (strtol0X str X b).2 ≠ 0 →
        isdigitIn b (peek (afterMarker str)) = true ∧
        (strtol0X str X b).1
          = leadSign str * (denote b ((afterMarker str).takeWhile (isdigitIn b)) : Nat) ∧
        (strtol0X str X b).2
          = str.length - (afterMarker str).length
            + ((afterMarker str).takeWhile (isdigitIn b)).length) ∧
    strtol0X ['0', 'x', '-', '5'] 'X' 16 = (-5, 4) ∧
    strtol0X ['0', 'x', ' ', '5'] 'X' 16 = (5, 4) ∧
    strtol0X ['0', 'x', '0', 'x', '5'] 'X' 16 = (5, 5) ∧
    strtol0X ['0', 'x', 'F', 'F', 'F', 'F', 'F', 'F', 'F', 'F', 'F', 'F', 'F', 'F', 'F', 'F',
      'F', 'F', 'F'] 'X' 16 = (LONG_MAX, 19) := by
  refine ⟨?_, by decide, by decide, by decide, by decide⟩
  intro h
  have h1 := (h ['0', 'x', '-', '5'] 'X' 16 (by decide)).1
  exact absurd h1 (by decide)

/-- C15, amended: whenever `strtol0X str X base` succeeds, its value and cursor
are those of `strtol` on the text after the radix marker, with the leading
sign applied.  When moreover `2 ≤ base ≤ 36` and the character right after the
marker is a digit of the base that does not open a nested `0x` prefix, that
text begins with a non-empty maximal run of digits of the base, the value is
sign times the value of exactly that run when it fits a `long` (sign times
`LONG_MAX` otherwise), and the cursor is just past the last digit of the
run. -/
theorem C15_digit_run_after_marker (str : List Char) (X : Char) (b : Nat)
    (hsucc : (strtol0X str X b).2 ≠ 0) :
    strtol0X str X b
      = (wrapLong (leadSign str * (strtol (afterMarker str) b).1),
          str.length - (afterMarker str).length + (strtol (afterMarker str) b).2) ∧
    (2 ≤ b → b ≤ 36 → isdigitIn b (peek (afterMarker str)) = true →
      ¬ opensHexPrefix b (afterMarker str) →
        (afterMarker str).takeWhile (isdigitIn b) ≠ [] ∧
        (∀ c ∈ (afterMarker str).takeWhile (isdigitIn b), isdigitIn b c = true) ∧
        afterMarker str = (afterMarker str).takeWhile (isdigitIn b)
          ++ (afterMarker str).dropWhile (isdigitIn b) ∧
        isdigitIn b (peek ((afterMarker str).dropWhile (isdigitIn b))) = false ∧
        (((denote b ((afterMarker str).takeWhile (isdigitIn b)) : Nat) : Int) ≤ LONG_MAX →
          (strtol0X str X b).1
            = leadSign str * (denote b ((afterMarker str).takeWhile (isdigitIn b)) : Nat)) ∧
        (LONG_MAX < ((denote b ((afterMarker str).takeWhile (isdigitIn b)) : Nat) : Int) →
          (strtol0X str X b).1 = leadSign str * LONG_MAX) ∧
        (strtol0X str X b).2
          = str.length - (afterMarker str).length
            + ((afterMarker str).takeWhile (isdigitIn b)).length) := by
  obtain ⟨-, -, -, heq⟩ := strtol0X_success str X b hsucc
  refine ⟨heq, ?_⟩
  intro hb2 hb36 hdig hnest
  obtain ⟨hne, hst⟩ := strtol_digit_first (afterMarker str) b hb2 hb36 hdig hnest
  have hsc := signed_clamp (leadSign str)
    (digitsValue b ((afterMarker str).takeWhile (isdigitIn b))) (leadSign_cases str)
  have hval : (strtol0X str X b).1
      = wrapLong (leadSign str
          * clampLong ((digitsValue b ((afterMarker str).takeWhile (isdigitIn b)) : Nat) : Int)) := by
    rw [heq]
    show wrapLong (leadSign str * (strtol (afterMarker str) b).1) = _
    rw [hst]
  have hcur : (strtol0X str X b).2
      = str.length - (afterMarker str).length
        + ((afterMarker str).takeWhile (isdigitIn b)).length := by
    rw [heq]
    show str.length - (afterMarker str).length + (strtol (afterMarker str) b).2 = _
    rw [hst]
  rw [digitsValue_eq_denote] at hsc hval
  refine ⟨hne, fun c hc => List.mem_takeWhile_imp hc,
    (List.takeWhile_append_dropWhile _ _).symm, peek_dropWhile_digits b _, ?_, ?_, hcur⟩
  · intro h
    rw [hval]
    exact hsc.1 h
  · intro h
    rw [hval]
    exact hsc.2 h

theorem C15_witness :
    (strtol0X ['-', '0', 'x', '1', 'F', 'k'] 'X' 16).1
        = leadSign ['-', '0', 'x', '1', 'F', 'k']
          * (denote 16 ((afterMarker ['-', '0', 'x', '1', 'F', 'k']).takeWhile (isdigitIn 16)) : Nat) ∧
      (strtol0X ['-', '0', 'x', '1', 'F', 'k'] 'X' 16).2
        = ['-', '0', 'x', '1', 'F', 'k'].length
          - (afterMarker ['-', '0', 'x', '1', 'F', 'k']).length
          + ((afterMarker ['-', '0', 'x', '1', 'F', 'k']).takeWhile (isdigitIn 16)).length :=
  have h := (C15_digit_run_after_marker ['-', '0', 'x', '1', 'F', 'k'] 'X' 16 (by decide)).2
    (by decide) (by decide) (by decide) (by unfold opensHexPrefix; decide)
  ⟨h.2.2.2.2.1 (by decide), h.2.2.2.2.2.2⟩

/-- C16: for all integers `mincount` and `maxcount`, `arg_intn`, when the
allocation succeeds, yields an instance with `hdr.mincount = mincount`,
`hdr.maxcount = max mincount maxcount` (so `mincount ≤ hdr.maxcount`),
`count = 0`, the value array as allocated, and `datatype` the given label, or
"<int>" when the label is absent; when the allocation fails it yields nothing.
`arg_int0` is `arg_intn` with `(0, 1)` and `arg_int1` is `arg_intn` with
`(1, 1)`. -/
theorem C16_constructors (H : Nat) (ival : Int → Int)
    (shortopts longopts datatype glossary : Option String) (mincount maxcount : Int) :
    (∃ r, arg_intn H (some ival) shortopts longopts datatype mincount maxcount glossary = some r ∧
      r.hdr.mincount = mincount ∧ r.hdr.maxcount = max mincount maxcount ∧
      r.hdr.mincount ≤ r.hdr.maxcount ∧ r.count = 0 ∧ r.ival = ival ∧
      r.hdr.datatype = some (datatype.getD "<int>")) ∧
    (∀ label : String, ∃ r,
      arg_intn H (some ival) shortopts longopts (some label) mincount maxcount glossary = some r ∧
        r.hdr.datatype = some label) ∧
    (∃ r, arg_intn H (some ival) shortopts longopts none mincount maxcount glossary = some r ∧
      r.hdr.datatype = some "<int>") ∧
    arg_intn H none shortopts longopts datatype mincount maxcount glossary = none ∧
    (∀ mem, arg_int0 H mem shortopts longopts datatype glossary
      = arg_intn H mem shortopts longopts datatype 0 1 glossary) ∧
    (∀ mem, arg_int1 H mem shortopts longopts datatype glossary
      = arg_intn H mem shortopts longopts datatype 1 1 glossary) := by
  refine ⟨⟨_, rfl, rfl, ?_, ?_, rfl, rfl, rfl⟩, fun label => ⟨_, rfl, rfl⟩, ⟨_, rfl, rfl⟩, rfl,
    fun _ => rfl, fun _ => rfl⟩
  · show (if maxcount < mincount then mincount else maxcount) = max mincount maxcount
    split_ifs with h
    · rw [max_eq_left (le_of_lt h)]
    · rw [max_eq_right (not_lt.1 h)]
  · show mincount ≤ (if maxcount < mincount then mincount else maxcount)
    split_ifs with h
    · exact le_refl _
    · exact not_lt.1 h

/-- C17: counter invariant.  For every instance with `0 ≤ count ≤ maxcount`
(so `maxcount ≥ 0`; `maxcount` is a C `int`), each of `resetfn`, `scanfn` with
any argument, present or absent, and `checkfn` yields a state that again has
`0 ≤ count ≤ maxcount`, with the header (`mincount`, `maxcount`) unchanged.
`scanfn` never decreases `count` and increases it by at most one, and the
value array after `scanfn` is the one before, or the one before with a single
store at index `count`, which then lies in `[0, maxcount)`. -/
theorem C17_counter_invariant (parent : arg_int) (argval : Option (List Char))
    (h0 : 0 ≤ parent.count) (h1 : parent.count ≤ parent.hdr.maxcount)
    (hmax : parent.hdr.maxcount ≤ INT_MAX) :
    (0 ≤ (resetfn parent).count ∧ (resetfn parent).count ≤ (resetfn parent).hdr.maxcount ∧
      (resetfn parent).hdr = parent.hdr) ∧
    (0 ≤ (scanfn parent argval).2.count ∧
      (scanfn parent argval).2.count ≤ (scanfn parent argval).2.hdr.maxcount ∧
      (scanfn parent argval).2.hdr = parent.hdr ∧
      parent.count ≤ (scanfn parent argval).2.count ∧
      (scanfn parent argval).2.count ≤ parent.count + 1 ∧
      (∀ i, (scanfn parent argval).2.ival i ≠ parent.ival i →
        0 ≤ i ∧ i < parent.hdr.maxcount) ∧
      ((scanfn parent argval).2.ival = parent.ival ∨
        ∃ v, (scanfn parent argval).2.ival = Function.update parent.ival parent.count v ∧
          0 ≤ parent.count ∧ parent.count < parent.hdr.maxcount)) ∧
    (0 ≤ (checkfn parent).2.count ∧
      (checkfn parent).2.count ≤ (checkfn parent).2.hdr.maxcount ∧
      (checkfn parent).2.hdr = parent.hdr) := by
  refine ⟨⟨le_refl _, ?_, rfl⟩, ?_, ⟨h0, h1, rfl⟩⟩
  · show (0 : Int) ≤ parent.hdr.maxcount
    omega
  · rcases scanfn_shape parent argval with h | ⟨hne, -, v, h⟩
    · have h2 : (scanfn parent argval).2 = parent := by rw [h]
      rw [h2]
      exact ⟨h0, h1, rfl, le_refl _, by omega, fun i hi => absurd rfl hi, Or.inl rfl⟩
    · rw [h]
      have hw : wrapInt (parent.count + 1) = parent.count + 1 := by
        apply wrapInt_of_int
        · unfold INT_MIN; omega
        · omega
      refine ⟨?_, ?_, rfl, ?_, ?_, ?_, Or.inr ⟨v, rfl, h0, by omega⟩⟩
      · show 0 ≤ wrapInt (parent.count + 1)
        rw [hw]; omega
      · show wrapInt (parent.count + 1) ≤ parent.hdr.maxcount
        rw [hw]; omega
      · show parent.count ≤ wrapInt (parent.count + 1)
        rw [hw]; omega
      · show wrapInt (parent.count + 1) ≤ parent.count + 1
        rw [hw]
      · intro i hi
        by_cases hic : i = parent.count
        · rw [hic]; omega
        · exact absurd (Function.update_noteq hic v parent.ival) hi

theorem C17_witness :
    0 ≤ (scanfn sampleInstance (some ['7'])).2.count ∧
      (scanfn sampleInstance (some ['7'])).2.count
        ≤ (scanfn sampleInstance (some ['7'])).2.hdr.maxcount :=
  have h := (C17_counter_invariant sampleInstance (some ['7']) (by decide) (by decide)
    (by decide)).2.1
  ⟨h.1, h.2.1⟩

/-- C18: failure signalling of the prefixed attempt is unambiguous.  For every
string, marker `X` and base, `strtol0X` leaves the cursor at the start of the
string (offset 0) if and only if the attempt failed, that is after the
optional white space and sign the next character is not `0`, or the character
after that `0` differs from `X` under `toupper`, or `strtol` converts nothing
after the marker; in that case the value is 0.  On success the cursor is
strictly after the start and within the string.  The empty string and strings
that end right after the sign or the `0` fail in this way. -/
theorem C18_failure_signalling (str : List Char) (X : Char) (base : Int) :
    ((strtol0X str X base).2 = 0 ↔
      (peek (skipSign str) ≠ '0' ∨ toupper (peek (skipSign str).tail) ≠ toupper X ∨
        (strtol (skipSign str).tail.tail base).2 = 0)) ∧
    ((strtol0X str X base).2 = 0 → (strtol0X str X base).1 = 0) ∧
    ((strtol0X str X base).2 ≠ 0 →
      0 < (strtol0X str X base).2 ∧ (strtol0X str X base).2 ≤ str.length) ∧
    strtol0X [] X base = (0, 0) ∧ strtol0X ['+'] X base = (0, 0) ∧
    strtol0X ['-'] X base = (0, 0) ∧ strtol0X ['0'] X base = (0, 0) ∧
    strtol0X ['-', '0'] X base = (0, 0) := by
  have hle := strtol0X_offset_le str X base
  have hnil := strtol_nil base
  refine ⟨?_, ?_, fun h => ⟨Nat.pos_of_ne_zero h, hle⟩, ?_, ?_, ?_, ?_, ?_⟩
  · rw [strtol0X_eq]
    by_cases h1 : peek (skipSign str) ≠ '0'
    · rw [if_pos h1]; simp [h1]
    · rw [if_neg h1]
      by_cases h2 : toupper (peek (skipSign str).tail) ≠ toupper X
      · rw [if_pos h2]; simp [h2]
      · rw [if_neg h2]
        by_cases h3 : (strtol (skipSign str).tail.tail base).2 = 0
        · rw [if_pos h3]; simp [h3]
        · rw [if_neg h3]
          simp only [h1, h2, h3, false_or, iff_false]
          omega
  · rw [strtol0X_eq]
    split_ifs with h1 h2 h3
    · intro _; rfl
    · intro _; rfl
    · intro _; rfl
    · intro h
      simp only at h
      omega
  · rw [strtol0X_eq]
    rw [if_pos (by decide)]
  · rw [strtol0X_eq]
    rw [if_pos (by decide)]
  · rw [strtol0X_eq]
    rw [if_pos (by decide)]
  · rw [strtol0X_eq]
    have e : (skipSign ['0']).tail.tail = [] := by decide
    rw [e, hnil, if_pos rfl]
    split_ifs <;> rfl
  · rw [strtol0X_eq]
    have e : (skipSign ['-', '0']).tail.tail = [] := by decide
    rw [e, hnil, if_pos rfl]
    split_ifs <;> rfl

theorem C18_witness :
    0 < (strtol0X [' ', '-', '0', 'x', '1', 'F'] 'X' 16).2 ∧
      (strtol0X [' ', '-', '0', 'x', '1', 'F'] 'X' 16).2
        ≤ [' ', '-', '0', 'x', '1', 'F'].length :=
  (C18_failure_signalling [' ', '-', '0', 'x', '1', 'F'] 'X' 16).2.2.1 (by decide)

/-- C19: range invariant of stored values.  For every instance and every
present text, if `scanfn` returns 0 then the converted value `v` times the
scale of the suffix at the cursor (1 without a suffix), which is what the
source computes in a `long`, lies in `[INT_MIN, INT_MAX]`, and the element
stored at `ival[count]` is exactly that product: the narrowing to `int` loses
nothing. -/
theorem C19_stored_value_in_range (parent : arg_int) (text : List Char)
    (hok : (scanfn parent (some text)).1 = 0) :
    ∃ v e, scanfn_convert text = some (v, e) ∧
      (scanfn_scale v (text.drop e)).2 = v * scaleFactor (text.drop e) ∧
      INT_MIN ≤ v * scaleFactor (text.drop e) ∧ v * scaleFactor (text.drop e) ≤ INT_MAX ∧
      (scanfn parent (some text)).2.ival parent.count = v * scaleFactor (text.drop e) := by
  have hne : parent.count ≠ parent.hdr.maxcount := by
    intro hfull
    unfold scanfn at hok
    rw [if_pos hfull] at hok
    exact absurd hok (by decide : ¬ (EMAXCOUNT = (0 : Int)))
  cases hc : scanfn_convert text with
  | none =>
    unfold scanfn at hok
    rw [if_neg hne] at hok
    simp only [hc] at hok
    exact absurd hok (by decide : ¬ (EBADINT = (0 : Int)))
  | some r =>
    obtain ⟨v, e⟩ := r
    rw [scanfn_of_convert parent text v e hne hc] at hok ⊢
    by_cases h0 : (scanfn_scale v (List.drop e text)).1 = 0
    · obtain ⟨k1, k2, k3⟩ := scanfn_scale_ok v (text.drop e) h0
      rw [if_pos h0]
      refine ⟨v, e, rfl, k1, k2, k3, ?_⟩
      simp only [Function.update_same]
      rw [k1]
      exact wrapInt_of_int k2 k3
    · rw [if_neg h0] at hok
      exact absurd hok h0

theorem C19_witness :
    INT_MIN ≤ (scanfn sampleInstance (some ['-', '2', 'G', 'b'])).2.ival sampleInstance.count ∧
      (scanfn sampleInstance (some ['-', '2', 'G', 'b'])).2.ival sampleInstance.count ≤ INT_MAX :=
  match C19_stored_value_in_range sampleInstance ['-', '2', 'G', 'b'] (by decide) with
  | ⟨_, _, _, _, h1, h2, h3⟩ => ⟨h3 ▸ h1, h3 ▸ h2⟩

/-- C20: the three prefixed attempts are mutually exclusive: for every string
at most one of `strtol0X str 'X' 16`, `strtol0X str 'O' 8` and
`strtol0X str 'B' 2` succeeds.  So the value and cursor that `scanfn` obtains
are those of trying the three attempts in any order before the decimal
fallback.  The fallback is order-sensitive: whenever a prefixed attempt
succeeds, `strtol` in base 10 on the same text yields 0 with the cursor on
the radix marker. -/
theorem C20_prefixed_attempts_exclusive (str : List Char) :
    ¬ ((strtol0X str 'X' 16).2 ≠ 0 ∧ (strtol0X str 'O' 8).2 ≠ 0) ∧
    ¬ ((strtol0X str 'X' 16).2 ≠ 0 ∧ (strtol0X str 'B' 2).2 ≠ 0) ∧
    ¬ ((strtol0X str 'O' 8).2 ≠ 0 ∧ (strtol0X str 'B' 2).2 ≠ 0) ∧
    (∀ l : List (Int × Nat),
      l.Perm [strtol0X str 'X' 16, strtol0X str 'O' 8, strtol0X str 'B' 2] →
        scanfn_convert str = firstSuccess l (strtol str 10)) ∧
    (∀ (X : Char) (b : Int), ((X = 'X' ∧ b = 16) ∨ (X = 'O' ∧ b = 8) ∨ (X = 'B' ∧ b = 2)) →
      (strtol0X str X b).2 ≠ 0 →
        (strtol str 10).1 = 0 ∧
        str.drop (strtol str 10).2 = (skipSign str).tail ∧
        toupper (peek (str.drop (strtol str 10).2)) = toupper X ∧
        (strtol str 10).2 + 1 + (strtol (skipSign str).tail.tail b).2
          = (strtol0X str X b).2) := by
  have hXO := markers_exclusive str 'X' 'O' 16 8 (by decide)
  have hXB := markers_exclusive str 'X' 'B' 16 2 (by decide)
  have hOB := markers_exclusive str 'O' 'B' 8 2 (by decide)
  refine ⟨hXO, hXB, hOB, ?_, ?_⟩
  · intro l hl
    rw [scanfn_convert_firstSuccess]
    unfold firstSuccess
    rw [find_perm hl]
    intro a ha b hb hna hnb
    simp only [List.mem_cons, List.mem_singleton, List.not_mem_nil, or_false] at ha hb
    rcases ha with rfl | rfl | rfl
    · rcases hb with rfl | rfl | rfl
      · rfl
      · exact absurd ⟨hna, hnb⟩ hXO
      · exact absurd ⟨hna, hnb⟩ hXB
    · rcases hb with rfl | rfl | rfl
      · exact absurd ⟨hnb, hna⟩ hXO
      · rfl
      · exact absurd ⟨hna, hnb⟩ hOB
    · rcases hb with rfl | rfl | rfl
      · exact absurd ⟨hnb, hna⟩ hXB
      · exact absurd ⟨hnb, hna⟩ hOB
      · rfl
  · intro X b hXb hs
    have hX65 : 65 ≤ toupper X := by
      rcases hXb with ⟨rfl, -⟩ | ⟨rfl, -⟩ | ⟨rfl, -⟩ <;> decide
    obtain ⟨h0, hm, -, heq⟩ := strtol0X_success str X b hs
    obtain ⟨pre, m, rest, hstr, hskip, hmX⟩ := skipSign_shape str X (by omega) h0 hm
    have hdec := strtol_ten_at_marker pre rest m (by omega) (by rw [← hstr]; exact hskip)
    rw [← hstr] at hdec
    have hdrop : List.drop (pre.length + 1) str = m :: rest := by
      rw [hstr, List.drop_append]
      rfl
    have hl : str.length = pre.length + 2 + rest.length := by
      rw [hstr]
      simp
      omega
    refine ⟨?_, ?_, ?_, ?_⟩
    · rw [hdec]
    · rw [hdec, hskip]
      exact hdrop
    · rw [hdec]
      show toupper (peek (List.drop (pre.length + 1) str)) = toupper X
      rw [hdrop, peek_cons, hmX]
    · rw [heq, hdec, hskip]
      simp only [List.tail_cons]
      omega

theorem C20_witness :
    (strtol ['-', '0', 'b', '1', '0', '1'] 10).1 = 0 ∧
      ['-', '0', 'b', '1', '0', '1'].drop (strtol ['-', '0', 'b', '1', '0', '1'] 10).2
        = (skipSign ['-', '0', 'b', '1', '0', '1']).tail :=
  have h := (C20_prefixed_attempts_exclusive ['-', '0', 'b', '1', '0', '1']).2.2.2.2 'B' 2
    (Or.inr (Or.inr ⟨rfl, rfl⟩)) (by decide)
  ⟨h.1, h.2.1⟩

end ArgInt
